import Mathlib

/-!
# Verification of the LinkedIn job-alert ingestion pipeline

Shallow embedding of the core algorithms of the `linkedin-job-alerts`
repository: the sheet schema helpers (`sheets/schema.ts`), the status
decision of the match analyzer (`matcher/analyzer.ts`), the e-mail/card
parser (`LinkedInEmailParser`), the record validator (`types/job.ts`),
and the reconciliation writer (`sheets/writer.ts`).

Strings are modelled by Lean `String`/`List Char`; JS numbers that the
code always rounds/clamps to integers are modelled by `Int`; JS `Map`s
are modelled by insertion-ordered association lists; the regular
expressions of the source are hand-translated scanning functions.
-/

/-- The single-quote character `U+0027` used by `sanitizeCellValue` as the
neutralizing prefix. -/
def singleQuote : Char := Char.ofNat 39

/-- `sheets/schema.ts`: `FORMULA_INJECTION_CHARS = ['=', '+', '-', '@']`. -/
def FORMULA_INJECTION_CHARS : List Char := ['=', '+', '-', '@']

/-- `sheets/schema.ts` `sanitizeCellValue`: empty strings are returned as-is
(the `value.length === 0` early return collapses into the `[]` case); a value
whose first character (`value.charAt(0)`) is a formula-injection character is
prefixed with a single quote; anything else is returned unchanged. -/
def sanitizeCellValue (value : String) : String :=
  match value.data with
  | [] => value
  | c :: _ =>
      if c ∈ FORMULA_INJECTION_CHARS then String.mk (singleQuote :: value.data)
      else value

/-- `sheets/schema.ts` `JobStatus` enum values (the current 10-state version of
the schema, `src/unnamed/part_003`). -/
def JobStatus.NEW : String := "NEW"

def JobStatus.LOW_MATCH : String := "LOW MATCH"

def JobStatus.NOT_AVAILABLE : String := "NOT AVAILABLE"

def JobStatus.READ : String := "READ"

def JobStatus.INTERESTED : String := "INTERESTED"

def JobStatus.NOT_INTERESTED : String := "NOT INTERESTED"

def JobStatus.APPLIED : String := "APPLIED"

def JobStatus.INTERVIEW_SCHEDULED : String := "INTERVIEW SCHEDULED"

def JobStatus.DECLINED : String := "DECLINED"

def JobStatus.ACCEPTED : String := "ACCEPTED"

/-- `sheets/schema.ts`: `LOW_MATCH_THRESHOLD = 70`. -/
def LOW_MATCH_THRESHOLD : Int := 70

/-- `matcher/analyzer.ts` `determineStatus`: `null` probability keeps `NEW`;
a probability strictly below the threshold gives `LOW MATCH`; otherwise `NEW`.
Probabilities are integers in the source (every provider result is passed
through `Math.round` and clamped to `[0,100]`). -/
def determineStatus (probability : Option Int) : String :=
  match probability with
  | none => JobStatus.NEW
  | some p => if p < LOW_MATCH_THRESHOLD then JobStatus.LOW_MATCH else JobStatus.NEW

/-- JS `Math.round`: rounds half toward positive infinity. -/
def mathRound (q : ℚ) : Int := ⌊q + 1/2⌋

/-- Modelled from the spec: the dual-model analyzer that combines the two
providers' scores is missing from the source snapshot (only its callers in
`index.ts` and `sheets/writer.ts` and the single-provider `analyzer.ts` are
present).  Spec §4.5: "If both succeed, ensemble probability =
round(mean(scoreA, scoreB))". -/
def ensembleProbability (scoreA scoreB : Int) : Int :=
  mathRound (((scoreA : ℚ) + (scoreB : ℚ)) / 2)

/-- C7: `sanitizeCellValue` prefixes its input with a single-quote marker iff
the input is non-empty and its first character is one of `=`, `+`, `-`, `@`;
the empty string is returned unchanged; only the first character is inspected
(`"A+B"` unchanged, `"=1+1"` gets the marker). -/
theorem sanitizeCellValue_first_char_spec (v : String) :
    (sanitizeCellValue v = String.mk (singleQuote :: v.data) ↔
      ∃ c cs, v.data = c :: cs ∧ c ∈ FORMULA_INJECTION_CHARS) ∧
    ((∀ c cs, v.data = c :: cs → c ∉ FORMULA_INJECTION_CHARS) → sanitizeCellValue v = v) ∧
    sanitizeCellValue "" = "" ∧
    sanitizeCellValue "A+B" = "A+B" ∧
    sanitizeCellValue "=1+1" = String.mk (singleQuote :: "=1+1".data) := by
  obtain ⟨l⟩ := v
  cases l with
  | nil =>
      refine ⟨?_, fun _ => rfl, rfl, rfl, rfl⟩
      constructor
      · intro h
        have hlen := congrArg (fun s : String => s.data.length) h
        simp [sanitizeCellValue] at hlen
      · rintro ⟨c, cs, heq, -⟩
        simp at heq
  | cons c cs =>
      by_cases hc : c ∈ FORMULA_INJECTION_CHARS
      · refine ⟨⟨fun _ => ⟨c, cs, rfl, hc⟩, fun _ => ?_⟩, fun h => absurd hc (h c cs rfl), rfl, rfl, rfl⟩
        simp [sanitizeCellValue, hc]
      · refine ⟨?_, fun _ => by simp [sanitizeCellValue, hc], rfl, rfl, rfl⟩
        constructor
        · intro h
          have hlen := congrArg (fun s : String => s.data.length) h
          simp [sanitizeCellValue, hc] at hlen
        · rintro ⟨c', cs', heq, hmem⟩
          injection heq with h1 h2
          subst h1
          exact absurd hmem hc

/-- C9: with providerA = 80 and providerB = 60 the ensemble probability is
`round(mean(80, 60)) = 70`; the threshold rule is boundary-inclusive: exactly
70 maps to `NEW`, every probability strictly below 70 maps to `LOW MATCH`. -/
theorem ensemble_threshold_boundary :
    ensembleProbability 80 60 = 70 ∧
    determineStatus (some 70) = JobStatus.NEW ∧
    determineStatus (some (ensembleProbability 80 60)) = JobStatus.NEW ∧
    ∀ p : Int, p < 70 → determineStatus (some p) = JobStatus.LOW_MATCH := by
  have h : ensembleProbability 80 60 = 70 := by
    simp [ensembleProbability, mathRound]
    norm_num
  refine ⟨h, by simp [determineStatus, LOW_MATCH_THRESHOLD], by rw [h]; simp [determineStatus, LOW_MATCH_THRESHOLD], ?_⟩
  intro p hp
  simp [determineStatus, LOW_MATCH_THRESHOLD, hp]

/-- Witness for C9 at `p = 69`. -/
theorem ensemble_threshold_boundary_witness :
    determineStatus (some 69) = JobStatus.LOW_MATCH :=
  ensemble_threshold_boundary.2.2.2 69 (by norm_num)

/-! ## URL handling of `LinkedInEmailParser` (src/unnamed/part_002) -/

/-- `dropPrefix? p l` returns `some rest` when `l = p ++ rest`, else `none`
(character-by-character prefix matching, the building block of the
hand-translated regular expressions below). -/
def dropPrefix? : List Char → List Char → Option (List Char)
  | [], l => some l
  | _ :: _, [] => none
  | a :: p, b :: l => if a = b then dropPrefix? p l else none

/-- One attempt of `JOB_ID_PATTERN = /\/(?:comm\/)?jobs\/view\/(\d+)/` anchored
at the start of `l`.  The optional `comm/` group is tried greedily first, with
backtracking to the plain path; the capture `(\d+)` is the maximal digit run
and must be non-empty. -/
def tryJobPath (p : String) (l : List Char) : Option (List Char) :=
  match dropPrefix? p.data l with
  | some rest =>
      let ds := rest.takeWhile Char.isDigit
      if ds.isEmpty then none else some ds
  | none => none

def jobIdMatchAt (l : List Char) : Option (List Char) :=
  match tryJobPath "/comm/jobs/view/" l with
  | some ds => some ds
  | none => tryJobPath "/jobs/view/" l

/-- Leftmost match of `JOB_ID_PATTERN` over a character list. -/
def findJobIdAux : List Char → Option (List Char)
  | [] => none
  | c :: rest =>
      match jobIdMatchAt (c :: rest) with
      | some ds => some ds
      | none => findJobIdAux rest

/-- `s.match(JOB_ID_PATTERN)?.[1]`: the digit capture of the first match. -/
def jobIdPatternMatch (s : String) : Option String :=
  (findJobIdAux s.data).map String.mk

/-- `LINKEDIN_JOB_URL_PATTERN = /^https:\/\/(?:www\.)?linkedin\.com\/jobs\/view\/\d+$/`
of the parser (anchored at both ends).  The optional `www.` is resolved
deterministically: a string starting with `www.` can never also match the
`linkedin.com` continuation directly (`w ≠ l`), so stripping it when present
is equivalent to the regex alternative. -/
def linkedinJobUrlTest (s : String) : Bool :=
  match dropPrefix? "https://".data s.data with
  | none => false
  | some rest =>
      let rest2 :=
        match dropPrefix? "www.".data rest with
        | some r => r
        | none => rest
      match dropPrefix? "linkedin.com/jobs/view/".data rest2 with
      | none => false
      | some ds => !ds.isEmpty && ds.all Char.isDigit

/-- `types/job.ts` `LINKEDIN_JOB_URL_PATTERN =
/^https:\/\/(?:www\.)?linkedin\.com\/jobs\/view\/\d+/` (prefix-anchored only):
after the fixed part at least one digit must follow; any remainder is
ignored. -/
def linkedinJobUrlPrefixTest (s : String) : Bool :=
  match dropPrefix? "https://".data s.data with
  | none => false
  | some rest =>
      let rest2 :=
        match dropPrefix? "www.".data rest with
        | some r => r
        | none => rest
      match dropPrefix? "linkedin.com/jobs/view/".data rest2 with
      | none => false
      | some ds =>
          match ds with
          | [] => false
          | c :: _ => c.isDigit

/-- A character allowed inside the host component (parsing stops at the first
`/`, `?` or `#`). -/
def isHostChar (c : Char) : Bool := c != '/' && c != '?' && c != '#'

/-- A character belonging to the pathname (parsing stops at the first `?` or
`#`). -/
def isPathChar (c : Char) : Bool := c != '?' && c != '#'

/-- Models the WHATWG `new URL(raw)` constructor used by `cleanUrl`, returning
the parsed `pathname`, or `none` when the constructor would throw.  Only
absolute `http://`/`https://` URLs with a non-empty host are modelled — for
every other input the constructor either throws (relative/invalid URLs, which
`cleanUrl` catches) or produces a pathname that cannot match
`JOB_ID_PATTERN` (non-hierarchical schemes), so `cleanUrl` returns the raw
string either way.  The pathname runs from the first `/` after the host up to
the first `?` or `#` and defaults to `/`. -/
def parseUrlPathname (raw : String) : Option String :=
  let afterScheme :=
    match dropPrefix? "https://".data raw.data with
    | some r => some r
    | none => dropPrefix? "http://".data raw.data
  match afterScheme with
  | none => none
  | some rest =>
      let host := rest.takeWhile isHostChar
      if host.isEmpty then none
      else
        match rest.dropWhile isHostChar with
        | [] => some "/"
        | c :: tail =>
            if c = '/' then some (String.mk ((c :: tail).takeWhile isPathChar))
            else some "/"

/-- `LinkedInEmailParser.cleanUrl`: strip tracking parameters by rebuilding
the canonical URL from the job id found in the pathname; on URL-parse failure
or a pathname without a job-id match, return the raw string. -/
def cleanUrl (rawUrl : String) : String :=
  match parseUrlPathname rawUrl with
  | none => rawUrl
  | some pathname =>
      match jobIdPatternMatch pathname with
      | some id => "https://www.linkedin.com/jobs/view/" ++ id
      | none => rawUrl

/-! ### Evaluation lemmas for the URL pipeline -/

theorem dropPrefix?_append (p l : List Char) : dropPrefix? p (p ++ l) = some l := by
  induction p with
  | nil => rfl
  | cons a p ih => simp [dropPrefix?, ih]

theorem takeWhile_eq_self_of_all {p : Char → Bool} {l : List Char}
    (h : ∀ a ∈ l, p a = true) : l.takeWhile p = l := by
  induction l with
  | nil => rfl
  | cons a l ih =>
      simp only [List.takeWhile_cons, h a (List.mem_cons_self a l), if_true]
      exact congrArg (a :: ·) (ih fun b hb => h b (List.mem_cons_of_mem a hb))

theorem takeWhile_append_stop {p : Char → Bool} {l₁ : List Char} {c : Char} {l₂ : List Char}
    (h₁ : ∀ a ∈ l₁, p a = true) (hc : p c = false) :
    (l₁ ++ c :: l₂).takeWhile p = l₁ := by
  induction l₁ with
  | nil => simp [List.takeWhile_cons, hc]
  | cons a l₁ ih =>
      simp only [List.cons_append, List.takeWhile_cons, h₁ a (List.mem_cons_self a l₁), if_true]
      exact congrArg (a :: ·) (ih fun b hb => h₁ b (List.mem_cons_of_mem a hb))

theorem dropWhile_append_stop {p : Char → Bool} {l₁ : List Char} {c : Char} {l₂ : List Char}
    (h₁ : ∀ a ∈ l₁, p a = true) (hc : p c = false) :
    (l₁ ++ c :: l₂).dropWhile p = c :: l₂ := by
  induction l₁ with
  | nil => simp [List.dropWhile_cons, hc]
  | cons a l₁ ih =>
      simp only [List.cons_append, List.dropWhile_cons, h₁ a (List.mem_cons_self a l₁), if_true]
      exact ih fun b hb => h₁ b (List.mem_cons_of_mem a hb)

/-- A digit character is a path character and not a `?`/`#`. -/
theorem isPathChar_of_isDigit {c : Char} (h : c.isDigit = true) : isPathChar c = true := by
  rcases eq_or_ne c '?' with rfl | hq
  · exact absurd h (by decide)
  · rcases eq_or_ne c '#' with rfl | hh
    · exact absurd h (by decide)
    · simp [isPathChar, hq, hh]

/-- Pathname of the canonical job URL: `/jobs/view/<id>`. -/
theorem parseUrlPathname_canonical (id : List Char) (hid : ∀ c ∈ id, c.isDigit = true) :
    parseUrlPathname ("https://www.linkedin.com/jobs/view/" ++ String.mk id) =
      some (String.mk ("/jobs/view/".data ++ id)) := by
  have hdata : ("https://www.linkedin.com/jobs/view/" ++ String.mk id).data =
      "https://".data ++ ("www.linkedin.com".data ++ ('/' :: ("jobs/view/".data ++ id))) := by
    simp [String.data_append]
  have hhost : ∀ a ∈ "www.linkedin.com".data, isHostChar a = true := by decide
  have hslash : isHostChar '/' = false := by decide
  unfold parseUrlPathname
  rw [hdata, dropPrefix?_append]
  simp only [takeWhile_append_stop hhost hslash, dropWhile_append_stop hhost hslash]
  have hne : ("www.linkedin.com".data).isEmpty = false := by decide
  simp only [hne, Bool.false_eq_true, if_false, if_pos rfl]
  have hjv : ∀ a ∈ "jobs/view/".data, isPathChar a = true := by decide
  have hpath : ('/' :: ("jobs/view/".data ++ id)).takeWhile isPathChar =
      '/' :: ("jobs/view/".data ++ id) := by
    apply takeWhile_eq_self_of_all
    intro a ha
    rcases List.mem_cons.mp ha with rfl | ha
    · decide
    · rcases List.mem_append.mp ha with ha | ha
      · exact hjv a ha
      · exact isPathChar_of_isDigit (hid a ha)
  rw [hpath]
  rfl

/-- Pathname of the `comm/` variant with a tracking query:
`/comm/jobs/view/<id>`. -/
theorem parseUrlPathname_comm_query (id q : List Char) (hid : ∀ c ∈ id, c.isDigit = true) :
    parseUrlPathname
        ("https://www.linkedin.com/comm/jobs/view/" ++ String.mk id ++ "?" ++ String.mk q) =
      some (String.mk ("/comm/jobs/view/".data ++ id)) := by
  have hdata : ("https://www.linkedin.com/comm/jobs/view/" ++ String.mk id ++ "?"
        ++ String.mk q).data =
      "https://".data ++ ("www.linkedin.com".data
        ++ ('/' :: (("comm/jobs/view/".data ++ id) ++ '?' :: q))) := by
    simp [String.data_append]
  have hhost : ∀ a ∈ "www.linkedin.com".data, isHostChar a = true := by decide
  have hslash : isHostChar '/' = false := by decide
  unfold parseUrlPathname
  rw [hdata, dropPrefix?_append]
  simp only [takeWhile_append_stop hhost hslash, dropWhile_append_stop hhost hslash]
  have hne : ("www.linkedin.com".data).isEmpty = false := by decide
  simp only [hne, Bool.false_eq_true, if_false, if_pos rfl]
  have hpath : ('/' :: (("comm/jobs/view/".data ++ id) ++ '?' :: q)).takeWhile isPathChar =
      '/' :: ("comm/jobs/view/".data ++ id) := by
    have : ('/' :: (("comm/jobs/view/".data ++ id) ++ '?' :: q)) =
        ('/' :: ("comm/jobs/view/".data ++ id)) ++ '?' :: q := by simp
    rw [this]
    have hjv : ∀ a ∈ "comm/jobs/view/".data, isPathChar a = true := by decide
    apply takeWhile_append_stop
    · intro a ha
      rcases List.mem_cons.mp ha with rfl | ha
      · decide
      · rcases List.mem_append.mp ha with ha | ha
        · exact hjv a ha
        · exact isPathChar_of_isDigit (hid a ha)
    · decide
  rw [hpath]
  rfl

theorem tryJobPath_exact (p : String) (id : List Char) (hid : ∀ c ∈ id, c.isDigit = true)
    (hne : id ≠ []) : tryJobPath p (p.data ++ id) = some id := by
  unfold tryJobPath
  rw [dropPrefix?_append]
  show (if (List.takeWhile Char.isDigit id).isEmpty = true then none
    else some (List.takeWhile Char.isDigit id)) = some id
  rw [takeWhile_eq_self_of_all hid]
  cases id with
  | nil => exact absurd rfl hne
  | cons c cs => rfl

theorem tryJobPath_comm_on_plain (id : List Char) :
    tryJobPath "/comm/jobs/view/" ("/jobs/view/".data ++ id) = none := by
  have h : dropPrefix? "/comm/jobs/view/".data ("/jobs/view/".data ++ id) = none := by
    show dropPrefix? ('/' :: 'c' :: "omm/jobs/view/".data)
        ('/' :: 'j' :: ("obs/view/".data ++ id)) = none
    simp [dropPrefix?]
  unfold tryJobPath
  rw [h]

theorem jobIdMatchAt_comm (id : List Char) (hid : ∀ c ∈ id, c.isDigit = true)
    (hne : id ≠ []) : jobIdMatchAt ("/comm/jobs/view/".data ++ id) = some id := by
  unfold jobIdMatchAt
  rw [tryJobPath_exact "/comm/jobs/view/" id hid hne]

theorem jobIdMatchAt_plain (id : List Char) (hid : ∀ c ∈ id, c.isDigit = true)
    (hne : id ≠ []) : jobIdMatchAt ("/jobs/view/".data ++ id) = some id := by
  unfold jobIdMatchAt
  rw [tryJobPath_comm_on_plain, tryJobPath_exact "/jobs/view/" id hid hne]

theorem findJobIdAux_comm (id : List Char) (hid : ∀ c ∈ id, c.isDigit = true)
    (hne : id ≠ []) : findJobIdAux ("/comm/jobs/view/".data ++ id) = some id := by
  have hcons : "/comm/jobs/view/".data ++ id = '/' :: ("comm/jobs/view/".data ++ id) := rfl
  rw [hcons]
  simp only [findJobIdAux]
  rw [← hcons, jobIdMatchAt_comm id hid hne]

theorem findJobIdAux_plain (id : List Char) (hid : ∀ c ∈ id, c.isDigit = true)
    (hne : id ≠ []) : findJobIdAux ("/jobs/view/".data ++ id) = some id := by
  have hcons : "/jobs/view/".data ++ id = '/' :: ("jobs/view/".data ++ id) := rfl
  rw [hcons]
  simp only [findJobIdAux]
  rw [← hcons, jobIdMatchAt_plain id hid hne]

/-- `cleanUrl` leaves the canonical job URL unchanged (it re-derives itself
from the extracted id). -/
theorem cleanUrl_canonical (id : List Char) (hid : ∀ c ∈ id, c.isDigit = true)
    (hne : id ≠ []) :
    cleanUrl ("https://www.linkedin.com/jobs/view/" ++ String.mk id) =
      "https://www.linkedin.com/jobs/view/" ++ String.mk id := by
  unfold cleanUrl
  rw [parseUrlPathname_canonical id hid]
  unfold jobIdPatternMatch
  show (match (findJobIdAux ("/jobs/view/".data ++ id)).map String.mk with
    | some i => "https://www.linkedin.com/jobs/view/" ++ i
    | none => "https://www.linkedin.com/jobs/view/" ++ String.mk id) = _
  rw [findJobIdAux_plain id hid hne]
  rfl

/-- `cleanUrl` of the `comm/` variant carrying a query normalizes to the
canonical URL. -/
theorem cleanUrl_comm_query (id q : List Char) (hid : ∀ c ∈ id, c.isDigit = true)
    (hne : id ≠ []) :
    cleanUrl ("https://www.linkedin.com/comm/jobs/view/" ++ String.mk id ++ "?" ++ String.mk q) =
      "https://www.linkedin.com/jobs/view/" ++ String.mk id := by
  unfold cleanUrl
  rw [parseUrlPathname_comm_query id q hid]
  unfold jobIdPatternMatch
  show (match (findJobIdAux ("/comm/jobs/view/".data ++ id)).map String.mk with
    | some i => "https://www.linkedin.com/jobs/view/" ++ i
    | none => "https://www.linkedin.com/comm/jobs/view/" ++ String.mk id ++ "?" ++ String.mk q)
      = _
  rw [findJobIdAux_comm id hid hne]
  rfl

/-- C5: for every numeric id and every tracking query, cleaning the
`comm/jobs/view` variant URL yields the same canonical URL
`https://www.linkedin.com/jobs/view/<id>` as cleaning the plain `jobs/view`
URL with the identical id. -/
theorem cleanUrl_comm_roundtrip (id q : String) (hne : id ≠ "")
    (hid : ∀ c ∈ id.data, c.isDigit = true) :
    cleanUrl ("https://www.linkedin.com/comm/jobs/view/" ++ id ++ "?" ++ q) =
      cleanUrl ("https://www.linkedin.com/jobs/view/" ++ id) ∧
    cleanUrl ("https://www.linkedin.com/comm/jobs/view/" ++ id ++ "?" ++ q) =
      "https://www.linkedin.com/jobs/view/" ++ id := by
  obtain ⟨l⟩ := id
  have hdne : l ≠ [] := by
    intro h
    subst h
    exact hne rfl
  have h1 := cleanUrl_comm_query l q.data hid hdne
  have h2 := cleanUrl_canonical l hid hdne
  constructor
  · rw [h1]
    exact h2.symm
  · exact h1

/-- Witness for C5 with id `123456` and tracking query `trk=email&refId=abc`. -/
theorem cleanUrl_comm_roundtrip_witness :
    cleanUrl ("https://www.linkedin.com/comm/jobs/view/" ++ "123456" ++ "?" ++ "trk=email&refId=abc") =
      cleanUrl ("https://www.linkedin.com/jobs/view/" ++ "123456") ∧
    cleanUrl ("https://www.linkedin.com/comm/jobs/view/" ++ "123456" ++ "?" ++ "trk=email&refId=abc") =
      "https://www.linkedin.com/jobs/view/" ++ "123456" :=
  cleanUrl_comm_roundtrip "123456" "trk=email&refId=abc" (by decide) (by decide)

/-! ## Record validator (`types/job.ts`, current `officeLocation`/`workType`
version of src/unnamed/part_002) -/

/-- `WORK_TYPES = ['Remote', 'On-site', 'Hybrid', '']`. -/
def WORK_TYPES : List String := ["Remote", "On-site", "Hybrid", ""]

/-- The `Job` record produced by the parser: `jobId`, `title`, `company`,
`officeLocation`, `workType`, `url`. -/
structure Job where
  jobId : String
  title : String
  company : String
  officeLocation : String
  workType : String
  url : String
deriving Repr, DecidableEq

/-- The issues `JobSchema` (current version) reports, in field order: `jobId`,
`title` and `company` use `z.string().min(1)` (a length check), `officeLocation`
is unconstrained, `workType` must be a member of the `WORK_TYPES` enum, `url`
must match the prefix-anchored job-URL pattern.  We model the well-typed
inputs the parser constructs (field type errors are a separate zod issue
class never produced by the parser). -/
def jobIssues (j : Job) : List String :=
  (if 1 ≤ j.jobId.length then [] else ["Job ID is required"]) ++
  (if 1 ≤ j.title.length then [] else ["Job title is required"]) ++
  (if 1 ≤ j.company.length then [] else ["Company name is required"]) ++
  (if j.workType ∈ WORK_TYPES then [] else ["Invalid enum value for workType"]) ++
  (if linkedinJobUrlPrefixTest j.url then [] else ["Invalid LinkedIn job URL"])

/-- `parseJob = JobSchema.parse`: the thrown `ZodError` is modelled as the
`Except.error` carrying the full issue list. -/
def parseJob (j : Job) : Except (List String) Job :=
  match jobIssues j with
  | [] => Except.ok j
  | issues => Except.error issues

/-- `safeParseJob = JobSchema.safeParse`: same rule set, `none` on failure. -/
def safeParseJob (j : Job) : Option Job :=
  match jobIssues j with
  | [] => some j
  | _ :: _ => none

/-! ## Card extractor (`LinkedInEmailParser.extractJobFromCard`) -/

/-- One `<a>` element of a job card: its `href`, its (recursive) text content,
whether it carries the `font-bold` class, and whether it contains an `<img>`
descendant. -/
structure CardLink where
  href : String
  text : String
  isFontBold : Bool
  hasImg : Bool
deriving Repr, DecidableEq

/-- One job card (`td[data-test-id=job-card]`), modelled by what the cheerio
queries of `extractJobFromCard` can observe: all links (document order), the
`alt` attribute of every `<img>` (`none` = attribute absent), the text of
every `<p>`, the texts of the `h3`/`h4`/`[data-test-id=job-title]` heading
selectors, and the flattened card text. -/
structure Card where
  links : List CardLink
  imgAlts : List (Option String)
  paragraphs : List String
  h3s : List String
  h4s : List String
  testIdTitles : List String
  cardText : String
deriving Repr, DecidableEq

/-- Strip trailing whitespace from a character list. -/
def rstripWs (l : List Char) : List Char := (l.reverse.dropWhile Char.isWhitespace).reverse

/-- JS `String.prototype.trim` (whitespace and line terminators stripped from
both ends), implemented over the character list so that it evaluates by
kernel reduction. -/
def jsTrim (s : String) : String := String.mk (rstripWs (s.data.dropWhile Char.isWhitespace))

/-- JS `String.prototype.toLowerCase` (ASCII case folding suffices for the
comparisons the parser performs). -/
def stringToLower (s : String) : String := String.mk (s.data.map Char.toLower)

/-- JS `String.prototype.split` with a single-character separator. -/
def splitOnCharAux (sep : Char) : List Char → List Char → List (List Char)
  | [], acc => [acc.reverse]
  | c :: rest, acc =>
      if c = sep then acc.reverse :: splitOnCharAux sep rest []
      else splitOnCharAux sep rest (c :: acc)

def splitOnChar (sep : Char) (s : String) : List String :=
  (splitOnCharAux sep s.data []).map String.mk

/-- JS `Array.prototype.join` with a separator. -/
def joinSep (sep : List Char) : List (List Char) → List Char
  | [] => []
  | [x] => x
  | x :: y :: rest => x ++ sep ++ joinSep sep (y :: rest)

def joinSepStr (sep : String) (ls : List String) : String :=
  String.mk (joinSep sep.data (ls.map String.data))

/-- Substring test (`String.prototype.includes` / the `[href*=...]` cheerio
attribute selector). -/
def containsSub (needle : List Char) (l : List Char) : Bool :=
  match l with
  | [] => needle.isEmpty
  | _ :: rest => (dropPrefix? needle l).isSome || containsSub needle rest

/-- The `a[href*="jobs/view"]` selector predicate. -/
def hrefJobsView (lnk : CardLink) : Bool := containsSub "jobs/view".data lnk.href.data

/-- Strategy 2 of the title extraction: first link whose trimmed text is
non-empty, longer than 2 characters, and whose element contains no image. -/
def findLinkTitle : List CardLink → String
  | [] => ""
  | l :: rest =>
      let linkText := jsTrim l.text
      if linkText ≠ "" ∧ 2 < linkText.length ∧ l.hasImg = false then linkText
      else findLinkTitle rest

/-- Strategy 3: the heading selectors `['h3', 'h4', '[data-test-id=job-title]']`
in priority order; `.first().text().trim()` of an empty selection is `""`. -/
def headingTitle : List (List String) → String
  | [] => ""
  | sel :: rest =>
      let t := jsTrim (sel.head?.getD "")
      if t ≠ "" ∧ 2 < t.length then t else headingTitle rest

/-- The three ordered title strategies of `extractJobFromCard`, with the final
`title || 'Unknown Title'` fallback. -/
def extractTitle (card : Card) : String :=
  let fontBold := card.links.filter (fun l => l.isFontBold && hrefJobsView l)
  let t1 := if fontBold.isEmpty then "" else jsTrim (String.join (fontBold.map CardLink.text))
  let t2 := if t1 = "" then findLinkTitle (card.links.filter hrefJobsView) else t1
  let t3 := if t2 = "" then headingTitle [card.h3s, card.h4s, card.testIdTitles] else t2
  if t3 = "" then "Unknown Title" else t3

/-- Company from the first `img[alt]:not([alt=""])`, with the
`['Premium', 'premium', '']` placeholder filter. -/
def imgCompany (card : Card) : String :=
  let company := (((card.imgAlts.filterMap id).filter (fun a => a ≠ "")).head?).getD ""
  if company = "Premium" ∨ company = "premium" ∨ company = "" then "" else company

/-- The paragraph scan: the first paragraph containing a middle dot (while
`location` is still empty) is split on `·`; its first segment seeds the company
(only when the company is still empty and the segment non-empty), the remaining
segments re-joined with `" · "` become the location.  The `.each` loop does not
break, but the `!location` guard makes later paragraphs matter only while the
location is still empty. -/
def processParagraphs : List String → String → String → String × String
  | [], company, location => (company, location)
  | p :: rest, company, location =>
      let text := jsTrim p
      if containsSub ['·'] text.data ∧ location = "" then
        let parts := (splitOnChar '·' text).map jsTrim
        if 2 ≤ parts.length then
          let company' :=
            if company = "" ∧ parts.head?.getD "" ≠ "" then parts.head?.getD "" else company
          let location' := jsTrim (joinSepStr " · " (parts.drop 1))
          processParagraphs rest company' location'
        else processParagraphs rest company location
      else processParagraphs rest company location

/-! ### Location fallback patterns -/

/-- Case-insensitive prefix matching (for the `/i` regex flag). -/
def dropPrefixCI? : List Char → List Char → Option (List Char)
  | [], l => some l
  | _ :: _, [] => none
  | a :: p, b :: l => if a.toLower = b.toLower then dropPrefixCI? p l else none

/-- The optional greedy `(?:\s*\([^)]+\))?` suffix shared by the "United
States" and "City, ST" patterns: given that `core` characters already
matched, extend the match across whitespace, `(`, a non-empty run of
non-`)` characters and `)`; on any failure the optional group contributes
nothing. -/
def matchParenSuffix (core : Nat) (l : List Char) : Nat :=
  let rest := l.drop core
  let ws := rest.takeWhile Char.isWhitespace
  match rest.drop ws.length with
  | '(' :: rest3 =>
      let inner := rest3.takeWhile (fun c => c != ')')
      if inner.isEmpty then core
      else
        match rest3.drop inner.length with
        | ')' :: _ => core + ws.length + 1 + inner.length + 1
        | _ => core
  | _ => core

/-- `/United States(?:\s*\([^)]+\))?/i` anchored at the start of `l`
(13 characters of case-insensitive literal, then the optional qualifier). -/
def matchUSAt (l : List Char) : Option (List Char) :=
  match dropPrefixCI? "united states".data l with
  | none => none
  | some _ => some (l.take (matchParenSuffix 13 l))

/-- `/Remote/i` anchored at the start of `l`. -/
def matchRemoteAt (l : List Char) : Option (List Char) :=
  match dropPrefixCI? "remote".data l with
  | none => none
  | some _ => some (l.take 6)

/-- `[A-Z][a-z]+`: an ASCII-capitalized word; returns the consumed length. -/
def matchWordAt : List Char → Option Nat
  | [] => none
  | c :: rest =>
      if c.isUpper then
        let lows := rest.takeWhile Char.isLower
        if lows.isEmpty then none else some (1 + lows.length)
      else none

/-- `,\s*[A-Z]{2}`: the state part of the "City, ST" pattern. -/
def matchCityTail (l : List Char) : Option Nat :=
  match l with
  | ',' :: rest =>
      let ws := rest.takeWhile Char.isWhitespace
      match rest.drop ws.length with
      | a :: b :: _ => if a.isUpper ∧ b.isUpper then some (1 + ws.length + 2) else none
      | _ => none
  | _ => none

/-- The greedy-with-backtracking `(?:\s+[A-Z][a-z]+)*` star followed by the
`,\s*[A-Z]{2}` tail: deeper repetition counts are preferred, unwinding one
repetition at a time (the regex backtracking order).  The fuel argument only
bounds recursion; callers pass the remaining length, which suffices since
every repetition consumes at least two characters. -/
def matchWordsThenTail : Nat → List Char → Option Nat
  | 0, l => matchCityTail l
  | fuel + 1, l =>
      let ws := l.takeWhile Char.isWhitespace
      if ws.isEmpty then matchCityTail l
      else
        match matchWordAt (l.drop ws.length) with
        | some wlen =>
            match matchWordsThenTail fuel (l.drop (ws.length + wlen)) with
            | some n => some (ws.length + wlen + n)
            | none => matchCityTail l
        | none => matchCityTail l

/-- `/([A-Z][a-z]+(?:\s+[A-Z][a-z]+)*),\s*([A-Z]{2})(?:\s*\([^)]+\))?/`
anchored at the start of `l`. -/
def matchCityStAt (l : List Char) : Option (List Char) :=
  match matchWordAt l with
  | none => none
  | some w1 =>
      match matchWordsThenTail (l.drop w1).length (l.drop w1) with
      | none => none
      | some n => some (l.take (matchParenSuffix (w1 + n) l))

/-- Leftmost match of an anchored matcher (the `String.prototype.match`
scan). -/
def findFirstMatch (matchAt : List Char → Option (List Char)) : List Char → Option (List Char)
  | [] => none
  | c :: rest =>
      match matchAt (c :: rest) with
      | some m => some m
      | none => findFirstMatch matchAt rest

/-- The fallback over `card.text()` with the three `locationPatterns` in
priority order ("United States", "Remote", "City, ST"); the location stays
empty when none matches. -/
def fallbackLocation (cardText : String) : String :=
  match findFirstMatch matchUSAt cardText.data with
  | some m => String.mk m
  | none =>
      match findFirstMatch matchRemoteAt cardText.data with
      | some m => String.mk m
      | none =>
          match findFirstMatch matchCityStAt cardText.data with
          | some m => String.mk m
          | none => ""

/-! ### Work-type parsing -/

/-- Try one alternative of `\((Remote|On-site|Hybrid)\)$` (case-insensitive):
on success return the part before `(` and the original-case work-type
characters. -/
def tryWorkTypeSuffix (cand : String) (l : List Char) : Option (List Char × List Char) :=
  match l.reverse with
  | ')' :: restRev =>
      let wtRev := restRev.take cand.length
      let rest2 := restRev.drop cand.length
      match rest2 with
      | '(' :: preRev =>
          if wtRev.reverse.map Char.toLower = cand.data then some (preRev.reverse, wtRev.reverse)
          else none
      | _ => none
  | _ => none

/-- `WORK_TYPE_PATTERN = /^(.+?)\s*\((Remote|On-site|Hybrid)\)$/i`: the
anchored suffix fixes the `(` position per alternative (tried in regex
order); group 1 is the prefix minus trailing whitespace and must be
non-empty and free of line terminators (`.` does not match them). -/
def matchWorkType (s : String) : Option (String × String) :=
  let attempt :=
    match tryWorkTypeSuffix "remote" s.data with
    | some r => some r
    | none =>
        match tryWorkTypeSuffix "on-site" s.data with
        | some r => some r
        | none => tryWorkTypeSuffix "hybrid" s.data
  match attempt with
  | none => none
  | some (pre, wt) =>
      let g1 := rstripWs pre
      if g1 ≠ [] ∧ (∀ c ∈ g1, c ≠ '\n' ∧ c ≠ '\r') then some (String.mk g1, String.mk wt)
      else none

/-- `LinkedInEmailParser.parseLocation`: split a location string into
`officeLocation` and normalized `workType`. -/
def parseLocation (location : String) : String × String :=
  if location = "" then ("", "")
  else
    match matchWorkType location with
    | some (g1, g2) =>
        let workType :=
          if stringToLower g2 = "remote" then "Remote"
          else if stringToLower g2 = "on-site" then "On-site"
          else if stringToLower g2 = "hybrid" then "Hybrid"
          else ""
        (jsTrim g1, workType)
    | none => (location, "")

/-! ### The extractor -/

/-- Company and location after the paragraph scan and the card-text
fallback. -/
def extractCompanyLocation (card : Card) : String × String :=
  let cl := processParagraphs card.paragraphs (imgCompany card) ""
  let location := if cl.2 = "" then fallbackLocation card.cardText else cl.2
  (cl.1, location)

/-- The candidate record assembled by `extractJobFromCard` before validation
(`company || 'Unknown Company'` applied; location split into office location
and work type). -/
def mkCardJob (card : Card) (jobId url : String) : Job :=
  let cl := extractCompanyLocation card
  let pl := parseLocation cl.2
  { jobId := jobId
    title := extractTitle card
    company := if cl.1 = "" then "Unknown Company" else cl.1
    officeLocation := pl.1
    workType := pl.2
    url := url }

/-- `LinkedInEmailParser.extractJobFromCard`: find the first link whose href
contains `jobs/view` (reject the card when there is none), clean and validate
the URL, extract the job id, assemble the candidate record and validate it
with `safeParseJob`. -/
def extractJobFromCard (card : Card) : Option Job :=
  match (card.links.filter hrefJobsView).head? with
  | none => none
  | some jobLink =>
      let url := cleanUrl jobLink.href
      if linkedinJobUrlTest url then
        match jobIdPatternMatch url with
        | none => none
        | some jobId => safeParseJob (mkCardJob card jobId url)
      else none

/-- `LinkedInEmailParser.deduplicateJobs` (recursion over the job list with
the `seen` set as accumulator). -/
def deduplicateJobsAux (seen : List String) : List Job → List Job
  | [] => []
  | j :: rest =>
      if j.jobId ∈ seen then deduplicateJobsAux seen rest
      else j :: deduplicateJobsAux (j.jobId :: seen) rest

def deduplicateJobs (jobs : List Job) : List Job := deduplicateJobsAux [] jobs

/-- `utils/deduplication.ts` `deduplicateBy` (generic first-occurrence
deduplication by a string key). -/
def deduplicateByAux {T : Type} (keyFn : T → String) (seen : List String) : List T → List T
  | [] => []
  | x :: rest =>
      if keyFn x ∈ seen then deduplicateByAux keyFn seen rest
      else x :: deduplicateByAux keyFn (keyFn x :: seen) rest

def deduplicateBy {T : Type} (items : List T) (keyFn : T → String) : List T :=
  deduplicateByAux keyFn [] items

/-- `LinkedInEmailParser.parseEmail`: the cheerio query that locates every
card-boundary element (the fixed `data-test-id` marker attribute) is modelled
by taking the located cards as input, in document order; each card runs
through the extractor, rejected cards are dropped, and the result is
deduplicated by job id keeping first occurrences. -/
def parseEmail (cards : List Card) : List Job :=
  deduplicateJobs (cards.filterMap extractJobFromCard)

/-! ### Lemmas: the URL gate of the extractor -/

theorem dropPrefix?_extend_none (pat t l : List Char) (h1 : dropPrefix? pat t = none)
    (h2 : dropPrefix? t pat = none) : dropPrefix? pat (t ++ l) = none := by
  induction pat generalizing t with
  | nil => simp [dropPrefix?] at h1
  | cons a p ih =>
      cases t with
      | nil => simp [dropPrefix?] at h2
      | cons b tl =>
          simp only [dropPrefix?, List.cons_append] at h1 h2 ⊢
          by_cases hab : a = b
          · subst hab
            simp only [if_pos rfl] at h1 h2 ⊢
            exact ih tl h1 h2
          · simp [hab]

theorem jobIdMatchAt_extend_none (t l : List Char)
    (h1 : dropPrefix? "/comm/jobs/view/".data t = none)
    (h1' : dropPrefix? t "/comm/jobs/view/".data = none)
    (h2 : dropPrefix? "/jobs/view/".data t = none)
    (h2' : dropPrefix? t "/jobs/view/".data = none) :
    jobIdMatchAt (t ++ l) = none := by
  unfold jobIdMatchAt tryJobPath
  rw [dropPrefix?_extend_none _ _ _ h1 h1', dropPrefix?_extend_none _ _ _ h2 h2']

theorem findJobIdAux_append_none (pre l : List Char)
    (h : ∀ n, n < pre.length → jobIdMatchAt (pre.drop n ++ l) = none) :
    findJobIdAux (pre ++ l) = findJobIdAux l := by
  induction pre with
  | nil => rfl
  | cons c p ih =>
      have h0 := h 0 (by simp)
      rw [List.drop_zero, List.cons_append] at h0
      rw [List.cons_append]
      simp only [findJobIdAux]
      rw [h0]
      exact ih fun n hn => by
        have := h (n + 1) (by simpa using Nat.succ_lt_succ hn)
        rwa [List.drop_succ_cons] at this

/-- The full-URL job-id extraction: no match starts inside
`https://www.linkedin.com`, so the first match is the canonical path. -/
theorem jobIdPatternMatch_canonical (id : List Char) (hid : ∀ c ∈ id, c.isDigit = true)
    (hne : id ≠ []) :
    jobIdPatternMatch ("https://www.linkedin.com/jobs/view/" ++ String.mk id) =
      some (String.mk id) := by
  unfold jobIdPatternMatch
  have hdata : ("https://www.linkedin.com/jobs/view/" ++ String.mk id).data =
      "https://www.linkedin.com".data ++ ("/jobs/view/".data ++ id) := rfl
  rw [hdata]
  have hskip : ∀ n, n < ("https://www.linkedin.com".data).length →
      jobIdMatchAt (("https://www.linkedin.com".data).drop n ++ ("/jobs/view/".data ++ id))
        = none := by
    have hA : ∀ n, n < ("https://www.linkedin.com".data).length →
        dropPrefix? "/comm/jobs/view/".data (("https://www.linkedin.com".data).drop n)
          = none := by decide
    have hB : ∀ n, n < ("https://www.linkedin.com".data).length →
        dropPrefix? (("https://www.linkedin.com".data).drop n) "/comm/jobs/view/".data
          = none := by decide
    have hC : ∀ n, n < ("https://www.linkedin.com".data).length →
        dropPrefix? "/jobs/view/".data (("https://www.linkedin.com".data).drop n)
          = none := by decide
    have hD : ∀ n, n < ("https://www.linkedin.com".data).length →
        dropPrefix? (("https://www.linkedin.com".data).drop n) "/jobs/view/".data
          = none := by decide
    intro n hn
    exact jobIdMatchAt_extend_none _ _ (hA n hn) (hB n hn) (hC n hn) (hD n hn)
  rw [findJobIdAux_append_none _ _ hskip, findJobIdAux_plain id hid hne]
  rfl

/-- The canonical job URL passes the parser's anchored URL pattern. -/
theorem linkedinJobUrlTest_canonical (id : List Char) (hid : ∀ c ∈ id, c.isDigit = true)
    (hne : id ≠ []) :
    linkedinJobUrlTest ("https://www.linkedin.com/jobs/view/" ++ String.mk id) = true := by
  have hdata : ("https://www.linkedin.com/jobs/view/" ++ String.mk id).data =
      "https://".data ++ ("www.".data ++ ("linkedin.com/jobs/view/".data ++ id)) := rfl
  unfold linkedinJobUrlTest
  rw [hdata]
  simp only [dropPrefix?_append]
  cases id with
  | nil => exact absurd rfl hne
  | cons c cs =>
      simp only [List.isEmpty_cons, Bool.not_false, Bool.true_and, List.all_eq_true]
      exact hid

/-- The canonical job URL passes the validator's prefix-anchored URL
pattern. -/
theorem linkedinJobUrlPrefixTest_canonical (id : List Char) (hid : ∀ c ∈ id, c.isDigit = true)
    (hne : id ≠ []) :
    linkedinJobUrlPrefixTest ("https://www.linkedin.com/jobs/view/" ++ String.mk id) = true := by
  have hdata : ("https://www.linkedin.com/jobs/view/" ++ String.mk id).data =
      "https://".data ++ ("www.".data ++ ("linkedin.com/jobs/view/".data ++ id)) := rfl
  unfold linkedinJobUrlPrefixTest
  rw [hdata]
  simp only [dropPrefix?_append]
  cases id with
  | nil => exact absurd rfl hne
  | cons c cs => exact hid c (List.mem_cons_self c cs)

/-! ### Lemmas: the assembled record always validates -/

theorem one_le_length_of_ne_empty (s : String) (h : s ≠ "") : 1 ≤ s.length := by
  obtain ⟨l⟩ := s
  cases l with
  | nil => exact absurd rfl h
  | cons c cs =>
      show 1 ≤ (c :: cs).length
      simp

theorem ite_default_ne (s d : String) (hd : d ≠ "") : (if s = "" then d else s) ≠ "" := by
  split
  · exact hd
  · next h => exact h

theorem extractTitle_ne_empty (card : Card) : extractTitle card ≠ "" :=
  ite_default_ne _ _ (by decide)

theorem parseLocation_workType_mem (s : String) : (parseLocation s).2 ∈ WORK_TYPES := by
  unfold parseLocation
  split
  · simp [WORK_TYPES]
  · split
    · dsimp only
      split
      · simp [WORK_TYPES]
      · split
        · simp [WORK_TYPES]
        · split
          · simp [WORK_TYPES]
          · simp [WORK_TYPES]
    · simp [WORK_TYPES]

theorem jobIssues_mkCardJob (card : Card) (jobId url : String)
    (hid : 1 ≤ jobId.length) (hurl : linkedinJobUrlPrefixTest url = true) :
    jobIssues (mkCardJob card jobId url) = [] := by
  have hT : 1 ≤ (mkCardJob card jobId url).title.length := by
    have := extractTitle_ne_empty card
    simpa [mkCardJob] using one_le_length_of_ne_empty _ this
  have hC : 1 ≤ (mkCardJob card jobId url).company.length := by
    apply one_le_length_of_ne_empty
    exact ite_default_ne (extractCompanyLocation card).1 _ (by decide)
  have hW : (mkCardJob card jobId url).workType ∈ WORK_TYPES := by
    show (parseLocation (extractCompanyLocation card).2).2 ∈ WORK_TYPES
    exact parseLocation_workType_mem _
  have hI : 1 ≤ (mkCardJob card jobId url).jobId.length := hid
  have hU : linkedinJobUrlPrefixTest (mkCardJob card jobId url).url = true := hurl
  simp [jobIssues, hT, hC, hW, hI, hU]

theorem safeParseJob_of_issues_nil (j : Job) (h : jobIssues j = []) :
    safeParseJob j = some j := by
  unfold safeParseJob
  rw [h]

/-- C4: a card whose first job-view hyperlink carries the valid canonical
job-view URL with a numeric id extracts to a record with exactly that id;
a card with no job-view hyperlink, or whose first job-view hyperlink cleans
to a URL failing the canonical pattern (which covers a missing/empty id
segment and a non-job-view path), is rejected. -/
theorem extractJobFromCard_url_spec :
    (∀ (card : Card) (lnk : CardLink) (id : String),
      (card.links.filter hrefJobsView).head? = some lnk →
      lnk.href = "https://www.linkedin.com/jobs/view/" ++ id →
      id ≠ "" → (∀ c ∈ id.data, c.isDigit = true) →
      ∃ job, extractJobFromCard card = some job ∧ job.jobId = id) ∧
    (∀ card : Card, (card.links.filter hrefJobsView).head? = none →
      extractJobFromCard card = none) ∧
    (∀ (card : Card) (lnk : CardLink),
      (card.links.filter hrefJobsView).head? = some lnk →
      linkedinJobUrlTest (cleanUrl lnk.href) = false →
      extractJobFromCard card = none) := by
  refine ⟨?_, ?_, ?_⟩
  · intro card lnk id hhead href hne hid
    obtain ⟨idl⟩ := id
    have hdne : idl ≠ [] := fun h => hne (by rw [h])
    have hclean : cleanUrl lnk.href = lnk.href := by
      rw [href]
      exact cleanUrl_canonical idl hid hdne
    have htest : linkedinJobUrlTest (cleanUrl lnk.href) = true := by
      rw [hclean, href]
      exact linkedinJobUrlTest_canonical idl hid hdne
    have hmatch : jobIdPatternMatch (cleanUrl lnk.href) = some (String.mk idl) := by
      rw [hclean, href]
      exact jobIdPatternMatch_canonical idl hid hdne
    refine ⟨mkCardJob card (String.mk idl) (cleanUrl lnk.href), ?_, rfl⟩
    unfold extractJobFromCard
    rw [hhead]
    dsimp only
    rw [htest, hmatch]
    dsimp only
    apply safeParseJob_of_issues_nil
    apply jobIssues_mkCardJob
    · exact one_le_length_of_ne_empty _ hne
    · rw [hclean, href]
      exact linkedinJobUrlPrefixTest_canonical idl hid hdne
  · intro card hhead
    unfold extractJobFromCard
    rw [hhead]
  · intro card lnk hhead htest
    unfold extractJobFromCard
    rw [hhead]
    dsimp only
    rw [htest]
    rfl

/-- Witness for C4: a concrete one-link card with the canonical URL for id
`1234567890`. -/
theorem extractJobFromCard_url_spec_witness :
    ∃ job,
      extractJobFromCard
        { links := [{ href := "https://www.linkedin.com/jobs/view/1234567890",
                      text := "Software Engineer", isFontBold := true, hasImg := false }]
          imgAlts := [some "Acme Corp"]
          paragraphs := ["Acme Corp · Boston, MA (Remote)"]
          h3s := [], h4s := [], testIdTitles := []
          cardText := "Software Engineer Acme Corp · Boston, MA (Remote)" } = some job ∧
      job.jobId = "1234567890" :=
  extractJobFromCard_url_spec.1 _
    { href := "https://www.linkedin.com/jobs/view/1234567890",
      text := "Software Engineer", isFontBold := true, hasImg := false }
    "1234567890" (by decide) rfl (by decide) (by decide)

/-! ### Lemmas: deduplication -/

theorem filterMap_replicate_some {α β : Type} (f : α → Option β) (a : α) (b : β)
    (h : f a = some b) (n : ℕ) :
    (List.replicate n a).filterMap f = List.replicate n b := by
  induction n with
  | zero => rfl
  | succ n ih => simp [List.replicate_succ, List.filterMap_cons, h, ih]

theorem dedupAux_replicate_skip (j : Job) (seen : List String) (h : j.jobId ∈ seen) (n : ℕ) :
    deduplicateJobsAux seen (List.replicate n j) = [] := by
  induction n with
  | zero => rfl
  | succ n ih => simp [List.replicate_succ, deduplicateJobsAux, h, ih]

theorem dedupAux_sublist (seen : List String) (l : List Job) :
    List.Sublist (deduplicateJobsAux seen l) l := by
  induction l generalizing seen with
  | nil => exact List.Sublist.refl []
  | cons x rest ih =>
      simp only [deduplicateJobsAux]
      split
      · exact (ih seen).cons x
      · exact (ih _).cons₂ x

theorem dedupAux_not_seen (seen : List String) (l : List Job) :
    ∀ j ∈ deduplicateJobsAux seen l, j.jobId ∉ seen := by
  induction l generalizing seen with
  | nil =>
      intro j hj
      simp [deduplicateJobsAux] at hj
  | cons x rest ih =>
      intro j hj
      simp only [deduplicateJobsAux] at hj
      by_cases hx : x.jobId ∈ seen
      · rw [if_pos hx] at hj
        exact ih seen j hj
      · rw [if_neg hx] at hj
        rcases List.mem_cons.mp hj with rfl | hj
        · exact hx
        · have := ih (x.jobId :: seen) j hj
          exact fun hs => this (List.mem_cons_of_mem _ hs)

theorem dedupAux_keys_nodup (seen : List String) (l : List Job) :
    ((deduplicateJobsAux seen l).map Job.jobId).Nodup := by
  induction l generalizing seen with
  | nil => simp [deduplicateJobsAux]
  | cons x rest ih =>
      simp only [deduplicateJobsAux]
      split
      · exact ih seen
      · simp only [List.map_cons, List.nodup_cons]
        refine ⟨?_, ih _⟩
        intro hmem
        obtain ⟨j, hj, hjid⟩ := List.mem_map.mp hmem
        have := dedupAux_not_seen _ _ j hj
        exact this (by rw [hjid]; exact List.mem_cons_self _ _)

theorem dedupAux_first (seen : List String) (l : List Job) (j : Job)
    (hj : j ∈ deduplicateJobsAux seen l) :
    l.find? (fun x => x.jobId == j.jobId) = some j := by
  induction l generalizing seen with
  | nil => simp [deduplicateJobsAux] at hj
  | cons x rest ih =>
      simp only [deduplicateJobsAux] at hj
      by_cases hx : x.jobId ∈ seen
      · rw [if_pos hx] at hj
        have hne : x.jobId ≠ j.jobId := by
          have := dedupAux_not_seen seen rest j hj
          intro he
          exact this (he ▸ hx)
        rw [List.find?_cons_of_neg _ (by simpa using hne)]
        exact ih seen hj
      · rw [if_neg hx] at hj
        rcases List.mem_cons.mp hj with rfl | hj
        · rw [List.find?_cons_of_pos _ (by simp)]
        · have hnotin := dedupAux_not_seen _ _ j hj
          have hne : x.jobId ≠ j.jobId :=
            fun he => hnotin (he ▸ List.mem_cons_self _ _)
          rw [List.find?_cons_of_neg _ (by simpa using hne)]
          exact ih _ hj

theorem dedupBy_eq_dedupJobs_aux (seen : List String) (l : List Job) :
    deduplicateByAux Job.jobId seen l = deduplicateJobsAux seen l := by
  induction l generalizing seen with
  | nil => rfl
  | cons x rest ih =>
      simp only [deduplicateByAux, deduplicateJobsAux]
      split
      · exact ih seen
      · exact congrArg (x :: ·) (ih _)

/-- C6: parsing an email whose card list is the same card repeated `N ≥ 1`
times yields exactly one record (the one that card extracts to); in general
the parser's deduplication keeps a subsequence of the extracted records whose
ids are pairwise distinct and in which every kept record is the first
occurrence of its id — so output order is the document order of first
occurrences.  The shared utility `deduplicateBy` keyed by `jobId` computes
exactly the parser's deduplication. -/
theorem parseEmail_repeated_card :
    (∀ (N : ℕ) (c : Card) (j : Job), 1 ≤ N → extractJobFromCard c = some j →
      parseEmail (List.replicate N c) = [j]) ∧
    (∀ jobs : List Job,
      List.Sublist (deduplicateJobs jobs) jobs ∧
      ((deduplicateJobs jobs).map Job.jobId).Nodup ∧
      ∀ j ∈ deduplicateJobs jobs, jobs.find? (fun x => x.jobId == j.jobId) = some j) ∧
    ∀ items : List Job, deduplicateBy items Job.jobId = deduplicateJobs items := by
  refine ⟨?_, ?_, ?_⟩
  · intro N c j hN hc
    obtain ⟨m, rfl⟩ : ∃ m, N = m + 1 := ⟨N - 1, by omega⟩
    unfold parseEmail
    rw [filterMap_replicate_some _ _ _ hc]
    show deduplicateJobsAux [] (List.replicate (m + 1) j) = [j]
    rw [List.replicate_succ]
    simp only [deduplicateJobsAux, List.not_mem_nil, if_neg (fun h => h)]
    rw [dedupAux_replicate_skip j _ (List.mem_cons_self _ _) m]
  · intro jobs
    exact ⟨dedupAux_sublist [] jobs, dedupAux_keys_nodup [] jobs,
      fun j hj => dedupAux_first [] jobs j hj⟩
  · intro items
    exact dedupBy_eq_dedupJobs_aux [] items

/-- Witness for C6: the concrete card of the extractor witness repeated 3
times parses to exactly its single record. -/
theorem parseEmail_repeated_card_witness :
    parseEmail (List.replicate 3
      { links := [{ href := "https://www.linkedin.com/jobs/view/987654321",
                    text := "Backend Engineer", isFontBold := true, hasImg := false }]
        imgAlts := [some "BigData Co"]
        paragraphs := ["BigData Co · New York, NY (Hybrid)"]
        h3s := [], h4s := [], testIdTitles := []
        cardText := "Backend Engineer BigData Co · New York, NY (Hybrid)" }) =
      [{ jobId := "987654321", title := "Backend Engineer", company := "BigData Co",
         officeLocation := "New York, NY", workType := "Hybrid",
         url := "https://www.linkedin.com/jobs/view/987654321" }] :=
  parseEmail_repeated_card.1 3 _ _ (by norm_num) (by decide)

/-! ## Record validator, probability variant (`types/job.ts` version with
`location`/`probability`, src/unnamed/part_002 lines 563-619; this is the
variant the writer's `Job` type corresponds to) -/

namespace V1

/-- `Job` of the probability variant: `location` free text and an optional
nullable `probability` (`none` = field absent, `some none` = `null`,
`some (some x)` = a number). -/
structure Job where
  jobId : String
  title : String
  company : String
  location : String
  url : String
  probability : Option (Option ℚ)
deriving Repr, DecidableEq

/-- The issues `JobSchema` (probability variant) reports, in field order:
`jobId`/`title`/`company` are `z.string().min(1)` length checks, `location`
is unconstrained, `url` must match the prefix-anchored pattern,
`probability` (when present and non-null) must lie in `[0, 100]`. -/
def jobIssues (j : Job) : List String :=
  (if 1 ≤ j.jobId.length then [] else ["Job ID is required"]) ++
  (if 1 ≤ j.title.length then [] else ["Job title is required"]) ++
  (if 1 ≤ j.company.length then [] else ["Company name is required"]) ++
  (if linkedinJobUrlPrefixTest j.url then [] else ["Invalid LinkedIn job URL"]) ++
  (match j.probability with
   | some (some x) => if 0 ≤ x ∧ x ≤ 100 then [] else ["Probability out of range"]
   | _ => [])

/-- `parseJob = JobSchema.parse` (throws the full issue list). -/
def parseJob (j : Job) : Except (List String) Job :=
  match jobIssues j with
  | [] => Except.ok j
  | issues => Except.error issues

/-- `safeParseJob = JobSchema.safeParse` (same rule set, `none` on failure). -/
def safeParseJob (j : Job) : Option Job :=
  match jobIssues j with
  | [] => some j
  | _ :: _ => none

end V1

/-- C8: the two validator entry points agree on every input: the safe mode
succeeds exactly when the strict mode does not throw, both produce the same
record on success, and on failure the strict mode throws the structured issue
list — which enumerates every failing field — while the safe mode returns
`none`.  Stated for the cited probability variant and for the current
`workType` variant. -/
theorem parseJob_safeParseJob_agree (j : V1.Job) (j2 : Job) :
    ((V1.safeParseJob j).isSome ↔ ∃ v, V1.parseJob j = Except.ok v) ∧
    (∀ v, V1.safeParseJob j = some v → V1.parseJob j = Except.ok v ∧ v = j) ∧
    (V1.safeParseJob j = none →
      V1.parseJob j = Except.error (V1.jobIssues j) ∧ V1.jobIssues j ≠ []) ∧
    (j.jobId.length = 0 → "Job ID is required" ∈ V1.jobIssues j) ∧
    (j.title.length = 0 → "Job title is required" ∈ V1.jobIssues j) ∧
    (j.company.length = 0 → "Company name is required" ∈ V1.jobIssues j) ∧
    (linkedinJobUrlPrefixTest j.url = false → "Invalid LinkedIn job URL" ∈ V1.jobIssues j) ∧
    ((safeParseJob j2).isSome ↔ ∃ v, parseJob j2 = Except.ok v) ∧
    (∀ v, safeParseJob j2 = some v → parseJob j2 = Except.ok v ∧ v = j2) ∧
    (safeParseJob j2 = none →
      parseJob j2 = Except.error (jobIssues j2) ∧ jobIssues j2 ≠ []) := by
  refine ⟨?_, ?_, ?_, ?_, ?_, ?_, ?_, ?_, ?_, ?_⟩
  · cases h : V1.jobIssues j with
    | nil => simp [V1.safeParseJob, V1.parseJob, h]
    | cons a rest => simp [V1.safeParseJob, V1.parseJob, h]
  · intro v hv
    cases h : V1.jobIssues j with
    | nil =>
        simp only [V1.safeParseJob, h] at hv
        injection hv with hv
        subst hv
        simp [V1.parseJob, h]
    | cons a rest => simp [V1.safeParseJob, h] at hv
  · intro hv
    cases h : V1.jobIssues j with
    | nil => simp [V1.safeParseJob, h] at hv
    | cons a rest => simp [V1.parseJob, h]
  · intro h
    simp [V1.jobIssues, h]
  · intro h
    simp [V1.jobIssues, h]
  · intro h
    simp [V1.jobIssues, h]
  · intro h
    simp [V1.jobIssues, h]
  · cases h : jobIssues j2 with
    | nil => simp [safeParseJob, parseJob, h]
    | cons a rest => simp [safeParseJob, parseJob, h]
  · intro v hv
    cases h : jobIssues j2 with
    | nil =>
        simp only [safeParseJob, h] at hv
        injection hv with hv
        subst hv
        simp [parseJob, h]
    | cons a rest => simp [safeParseJob, h] at hv
  · intro hv
    cases h : jobIssues j2 with
    | nil => simp [safeParseJob, h] at hv
    | cons a rest => simp [parseJob, h]

/-- A record with an empty title (fails the probability-variant schema). -/
def badTitleJobV1 : V1.Job :=
  ⟨"123", "", "Acme", "", "https://www.linkedin.com/jobs/view/123", none⟩

/-- A fully valid record of the current schema. -/
def okJobV2 : Job := ⟨"123", "T", "Acme", "", "Remote", "https://www.linkedin.com/jobs/view/123"⟩

/-- Witness for C8: a record with an empty title fails safe parsing and the
strict mode throws its issue list; a valid record round-trips through the
strict mode. -/
theorem parseJob_safeParseJob_agree_witness :
    (V1.parseJob badTitleJobV1 = Except.error (V1.jobIssues badTitleJobV1) ∧
      V1.jobIssues badTitleJobV1 ≠ []) ∧
    (parseJob okJobV2 = Except.ok okJobV2 ∧ okJobV2 = okJobV2) :=
  ⟨(parseJob_safeParseJob_agree badTitleJobV1 okJobV2).2.2.1 (by decide),
   (parseJob_safeParseJob_agree badTitleJobV1 okJobV2).2.2.2.2.2.2.2.2.1 _ (by decide)⟩

/-- C10: the validator's non-empty rules are length checks, not blank checks:
any record whose title and company are non-empty but consist solely of
whitespace (and whose remaining fields satisfy the schema) is accepted by
both entry points, in both schema variants. -/
theorem whitespace_title_company_accepted :
    (∀ j : V1.Job,
      j.title ≠ "" → (∀ c ∈ j.title.data, c.isWhitespace = true) →
      j.company ≠ "" → (∀ c ∈ j.company.data, c.isWhitespace = true) →
      1 ≤ j.jobId.length → linkedinJobUrlPrefixTest j.url = true →
      (∀ x, j.probability = some (some x) → 0 ≤ x ∧ x ≤ 100) →
      V1.safeParseJob j = some j ∧ V1.parseJob j = Except.ok j) ∧
    (∀ j : Job,
      j.title ≠ "" → (∀ c ∈ j.title.data, c.isWhitespace = true) →
      j.company ≠ "" → (∀ c ∈ j.company.data, c.isWhitespace = true) →
      1 ≤ j.jobId.length → j.workType ∈ WORK_TYPES →
      linkedinJobUrlPrefixTest j.url = true →
      safeParseJob j = some j ∧ parseJob j = Except.ok j) := by
  constructor
  · intro j ht _ hc _ hid hurl hp
    have hissues : V1.jobIssues j = [] := by
      have h1 := one_le_length_of_ne_empty _ ht
      have h2 := one_le_length_of_ne_empty _ hc
      unfold V1.jobIssues
      rw [if_pos hid, if_pos h1, if_pos h2, if_pos hurl]
      rcases hprob : j.probability with - | (- | x)
      · rfl
      · rfl
      · show [] ++ [] ++ [] ++ [] ++
          (if 0 ≤ x ∧ x ≤ 100 then [] else ["Probability out of range"]) = []
        rw [if_pos (hp x hprob)]
        rfl
    constructor
    · unfold V1.safeParseJob
      rw [hissues]
    · unfold V1.parseJob
      rw [hissues]
  · intro j ht _ hc _ hid hwt hurl
    have hissues : jobIssues j = [] := by
      have h1 := one_le_length_of_ne_empty _ ht
      have h2 := one_le_length_of_ne_empty _ hc
      unfold jobIssues
      rw [if_pos hid, if_pos h1, if_pos h2, if_pos hwt, if_pos hurl]
      rfl
    constructor
    · exact safeParseJob_of_issues_nil j hissues
    · unfold parseJob
      rw [hissues]

/-- Whitespace-only title and company, probability variant. -/
def wsJobV1 : V1.Job := ⟨"42", " ", " ", "", "https://www.linkedin.com/jobs/view/42", some none⟩

/-- Whitespace-only title and company, current variant. -/
def wsJobV2 : Job := ⟨"42", " ", " ", "", "", "https://www.linkedin.com/jobs/view/42"⟩

/-- Witness for C10: a single-space title and company are accepted by both
entry points in both schema variants. -/
theorem whitespace_title_company_accepted_witness :
    (V1.safeParseJob wsJobV1 = some wsJobV1 ∧ V1.parseJob wsJobV1 = Except.ok wsJobV1) ∧
    (safeParseJob wsJobV2 = some wsJobV2 ∧ parseJob wsJobV2 = Except.ok wsJobV2) :=
  ⟨whitespace_title_company_accepted.1 wsJobV1
      (by decide) (by decide) (by decide) (by decide) (by decide) (by decide)
      (fun x hx => by simp [wsJobV1] at hx),
   whitespace_title_company_accepted.2 wsJobV2
      (by decide) (by decide) (by decide) (by decide) (by decide) (by decide) (by decide)⟩

/-! ## Reconciliation writer (`sheets/writer.ts`, schema of
src/unnamed/part_003) -/

/-- A sheet cell value (`string | number | null`). -/
inductive Cell where
  | str (s : String)
  | num (n : Int)
  | null
deriving Repr, DecidableEq

/-- `COLUMN_INDEX` of `sheets/schema.ts` (0-based). -/
def COLUMN_INDEX.JOB_ID : Nat := 0

def COLUMN_INDEX.STATUS : Nat := 1

def COLUMN_INDEX.DATE_ADDED : Nat := 2

def COLUMN_INDEX.DATE_MODIFIED : Nat := 3

def COLUMN_INDEX.PROBABILITY : Nat := 4

def COLUMN_INDEX.GEMINI_SCORE : Nat := 5

def COLUMN_INDEX.GEMINI_ARGUMENT : Nat := 6

def COLUMN_INDEX.CLAUDE_SCORE : Nat := 7

def COLUMN_INDEX.CLAUDE_ARGUMENT : Nat := 8

def COLUMN_INDEX.JOB_TITLE : Nat := 9

def COLUMN_INDEX.COMPANY : Nat := 10

def COLUMN_INDEX.LOCATION : Nat := 11

def COLUMN_INDEX.URL : Nat := 12

def COLUMN_INDEX.NOTES : Nat := 13

def COLUMN_INDEX.REQUIREMENTS_MET : Nat := 14

def COLUMN_INDEX.REQUIREMENTS_GAPS : Nat := 15

/-- The `MatchResult` consumed by the writer (the dual-model analyzer's result
type: probability/status/reasoning plus optional per-provider and
requirement-tracking fields; the single-provider `analyzer.ts` in the
snapshot produces the subset with the optional fields absent). -/
structure MatchResult where
  jobId : String
  probability : Option Int
  status : String
  reasoning : String
  geminiProbability : Option Int := none
  geminiReasoning : Option String := none
  claudeProbability : Option Int := none
  claudeReasoning : Option String := none
  requirementsMet : Option Int := none
  requirementsTotal : Option Int := none
  requirementsGaps : Option (List String) := none
deriving Repr, DecidableEq

/-- `ExistingJobData` of `sheets/writer.ts`: the in-memory mirror of one
stored row. -/
structure ExistingJobData where
  rowNumber : Nat
  title : String
  company : String
  location : String
  url : String
  probability : Option Int
  status : String
deriving Repr, DecidableEq

/-- JS `Map.get` over the insertion-ordered association list modelling the
`existingJobs` map. -/
def lookupJob : List (String × ExistingJobData) → String → Option ExistingJobData
  | [], _ => none
  | (k, v) :: rest, key => if k = key then some v else lookupJob rest key

/-- JS `Map.set`: update in place when the key exists, append otherwise. -/
def setJob : List (String × ExistingJobData) → String → ExistingJobData →
    List (String × ExistingJobData)
  | [], key, v => [(key, v)]
  | (k, w) :: rest, key, v =>
      if k = key then (k, v) :: rest else (k, w) :: setJob rest key v

/-- `Map.get` for the match-results map. -/
def lookupMR : List (String × MatchResult) → String → Option MatchResult
  | [], _ => none
  | (k, v) :: rest, key => if k = key then some v else lookupMR rest key

/-- `SheetsWriter.hasJobChanged`: only the comparable fields (sanitized
title/company/location and the url) are compared. -/
def hasJobChanged (job : V1.Job) (existing : ExistingJobData) : Bool :=
  (sanitizeCellValue job.title != existing.title) ||
  (sanitizeCellValue job.company != existing.company) ||
  (sanitizeCellValue job.location != existing.location) ||
  (job.url != existing.url)

/-- The three-way classification the `appendJobs` loop performs per job. -/
inductive JobClass where
  | newJob
  | update (rowNumber : Nat)
  | skip
deriving Repr, DecidableEq

def classifyJob (existing : List (String × ExistingJobData)) (job : V1.Job) : JobClass :=
  match lookupJob existing job.jobId with
  | none => JobClass.newJob
  | some e => if hasJobChanged job e then JobClass.update e.rowNumber else JobClass.skip

/-- A sheet row, total over column indices; range writes are modelled by
point updates. -/
def Row : Type := Nat → Cell

def setCell (r : Row) (i : Nat) (v : Cell) : Row := fun j => if j = i then v else r j

def blankRow : Row := fun _ => Cell.null

/-- The per-row effect of `SheetsWriter.updateExistingJobs`: the batched range
writes `D<row>` (`date_modified := now`) and `J<row>:M<row>` (sanitized
title/company/location and the url).  Columns E-I (probability, AI scores and
arguments), B (status), C (date_added), N (notes) and O-P are not in any
written range. -/
def updateRowForJob (now : String) (job : V1.Job) (r : Row) : Row :=
  setCell (setCell (setCell (setCell (setCell r
    COLUMN_INDEX.DATE_MODIFIED (Cell.str now))
    COLUMN_INDEX.JOB_TITLE (Cell.str (sanitizeCellValue job.title)))
    COLUMN_INDEX.COMPANY (Cell.str (sanitizeCellValue job.company)))
    COLUMN_INDEX.LOCATION (Cell.str (sanitizeCellValue job.location)))
    COLUMN_INDEX.URL (Cell.str job.url)

/-- `formatRequirementsFraction`. -/
def formatRequirementsFraction (met total : Option Int) : String :=
  match met, total with
  | some m, some t => toString m ++ "/" ++ toString t
  | _, _ => ""

/-- `formatRequirementsGaps`. -/
def formatRequirementsGaps (gaps : Option (List String)) : String :=
  match gaps with
  | none => ""
  | some [] => ""
  | some gs => sanitizeCellValue (joinSepStr "; " gs)

def optNumCell : Option Int → Cell
  | some n => Cell.num n
  | none => Cell.null

/-- The `matchResult?.xReasoning ? sanitizeCellValue(...) : ''` cells (a
present but empty reasoning string is falsy and also yields `''`). -/
def argumentCell : Option String → Cell
  | none => Cell.str ""
  | some s => if s = "" then Cell.str "" else Cell.str (sanitizeCellValue s)

/-- `SheetsWriter.jobToRow`: the full 16-column row written for a new job;
status is the match result's status or `NEW`, both timestamps are `now`,
notes start blank, free text is sanitized. -/
def jobToRow (now : String) (job : V1.Job) (matchResult : Option MatchResult) : Row :=
  let status := match matchResult with | some m => m.status | none => JobStatus.NEW
  let probability : Option Int :=
    match matchResult with | some m => m.probability | none => none
  setCell (setCell (setCell (setCell (setCell (setCell (setCell (setCell
    (setCell (setCell (setCell (setCell (setCell (setCell (setCell (setCell blankRow
    COLUMN_INDEX.JOB_ID (Cell.str job.jobId))
    COLUMN_INDEX.STATUS (Cell.str status))
    COLUMN_INDEX.DATE_ADDED (Cell.str now))
    COLUMN_INDEX.DATE_MODIFIED (Cell.str now))
    COLUMN_INDEX.PROBABILITY (optNumCell probability))
    COLUMN_INDEX.GEMINI_SCORE
      (optNumCell (match matchResult with | some m => m.geminiProbability | none => none)))
    COLUMN_INDEX.GEMINI_ARGUMENT
      (argumentCell (match matchResult with | some m => m.geminiReasoning | none => none)))
    COLUMN_INDEX.CLAUDE_SCORE
      (optNumCell (match matchResult with | some m => m.claudeProbability | none => none)))
    COLUMN_INDEX.CLAUDE_ARGUMENT
      (argumentCell (match matchResult with | some m => m.claudeReasoning | none => none)))
    COLUMN_INDEX.JOB_TITLE (Cell.str (sanitizeCellValue job.title)))
    COLUMN_INDEX.COMPANY (Cell.str (sanitizeCellValue job.company)))
    COLUMN_INDEX.LOCATION (Cell.str (sanitizeCellValue job.location)))
    COLUMN_INDEX.URL (Cell.str job.url))
    COLUMN_INDEX.NOTES (Cell.str ""))
    COLUMN_INDEX.REQUIREMENTS_MET
      (Cell.str (formatRequirementsFraction
        (match matchResult with | some m => m.requirementsMet | none => none)
        (match matchResult with | some m => m.requirementsTotal | none => none))))
    COLUMN_INDEX.REQUIREMENTS_GAPS
      (Cell.str (formatRequirementsGaps
        (match matchResult with | some m => m.requirementsGaps | none => none)))

/-! ### Probability backfill (`updateExistingJobProbabilities`) -/

/-- One cell write of a batched update. -/
structure CellWrite where
  rowNumber : Nat
  col : Nat
  value : Cell
deriving Repr, DecidableEq

/-- The selection loop of `updateExistingJobProbabilities`: entries of the
match-results map whose job id exists in the index with a `null` stored
probability while the fresh result carries a non-null probability. -/
def backfillSelect (existing : List (String × ExistingJobData))
    (matchResults : List (String × MatchResult)) : List (String × Nat × MatchResult) :=
  matchResults.filterMap fun p =>
    match lookupJob existing p.1 with
    | some e =>
        if e.probability = none ∧ p.2.probability ≠ none then some (p.1, e.rowNumber, p.2)
        else none
    | none => none

/-- The batched cell writes of `updateExistingJobProbabilities`: per selected
row the probability cell `E` and the requirements cells `O:P`; the status
cell `B` is added — with value `LOW MATCH` — only when the mirrored status is
still `NEW` and the fresh status is `LOW MATCH` (the source re-finds the
entry by row number inside the `flatMap`, which is kept verbatim). -/
def backfillWrites (existing : List (String × ExistingJobData))
    (matchResults : List (String × MatchResult)) : List CellWrite :=
  (backfillSelect existing matchResults).flatMap fun t =>
    [⟨t.2.1, COLUMN_INDEX.PROBABILITY, optNumCell t.2.2.probability⟩,
     ⟨t.2.1, COLUMN_INDEX.REQUIREMENTS_MET,
       Cell.str (formatRequirementsFraction t.2.2.requirementsMet t.2.2.requirementsTotal)⟩,
     ⟨t.2.1, COLUMN_INDEX.REQUIREMENTS_GAPS,
       Cell.str (formatRequirementsGaps t.2.2.requirementsGaps)⟩] ++
    (match (backfillSelect existing matchResults).find? (fun q => q.2.1 = t.2.1) with
     | some q =>
         match lookupJob existing q.1 with
         | some e =>
             if e.status = JobStatus.NEW ∧ t.2.2.status = JobStatus.LOW_MATCH then
               [⟨t.2.1, COLUMN_INDEX.STATUS, Cell.str JobStatus.LOW_MATCH⟩]
             else []
         | none => []
     | none => [])

/-! ### The in-memory mirror across one `appendJobs` run -/

/-- The classification loop of `appendJobs` restricted to the jobs that have
an existing entry with changed comparable fields, in batch order. -/
def jobsToUpdateOf (existing : List (String × ExistingJobData)) (jobs : List V1.Job) :
    List (V1.Job × Nat) :=
  jobs.filterMap fun j =>
    match lookupJob existing j.jobId with
    | some e => if hasJobChanged j e then some (j, e.rowNumber) else none
    | none => none

/-- The jobs with no existing entry, in batch order. -/
def newJobsOf (existing : List (String × ExistingJobData)) (jobs : List V1.Job) :
    List V1.Job :=
  jobs.filter fun j => lookupJob existing j.jobId = none

/-- The mirror update of `updateExistingJobs`: each updated job is re-inserted
with sanitized comparable fields while `probability` and `status` are taken
from the current mirror entry (`existing?.probability ?? null`,
`existing?.status ?? ''`). -/
def applyUpdateCache : List (String × ExistingJobData) → List (V1.Job × Nat) →
    List (String × ExistingJobData)
  | acc, [] => acc
  | acc, (j, rowNumber) :: rest =>
      applyUpdateCache
        (setJob acc j.jobId
          { rowNumber := rowNumber
            title := sanitizeCellValue j.title
            company := sanitizeCellValue j.company
            location := sanitizeCellValue j.location
            url := j.url
            probability := match lookupJob acc j.jobId with
              | some ed => ed.probability
              | none => none
            status := match lookupJob acc j.jobId with
              | some ed => ed.status
              | none => "" })
        rest

/-- The mirror entry `appendJobs` inserts for a newly appended job
(`rowNumber` via `newJobs.indexOf(job)`, probability/status from the match
result or `null`/`NEW`). -/
def newCacheEntry (allNew : List V1.Job) (matchResults : List (String × MatchResult))
    (currentRowCount : Nat) (j : V1.Job) : ExistingJobData :=
  { rowNumber := currentRowCount + allNew.indexOf j + 1
    title := j.title
    company := j.company
    location := j.location
    url := j.url
    probability := match lookupMR matchResults j.jobId with
      | some m => m.probability
      | none => none
    status := match lookupMR matchResults j.jobId with
      | some m => m.status
      | none => JobStatus.NEW }

def applyNewCacheAux (allNew : List V1.Job) (matchResults : List (String × MatchResult))
    (currentRowCount : Nat) : List (String × ExistingJobData) → List V1.Job →
    List (String × ExistingJobData)
  | acc, [] => acc
  | acc, j :: rest =>
      applyNewCacheAux allNew matchResults currentRowCount
        (setJob acc j.jobId (newCacheEntry allNew matchResults currentRowCount j)) rest

/-- The full mirror after `appendJobs`: the update-loop mirror writes followed
by the new-job insertions. -/
def appendJobsCache (existing : List (String × ExistingJobData)) (jobs : List V1.Job)
    (matchResults : List (String × MatchResult)) (currentRowCount : Nat) :
    List (String × ExistingJobData) :=
  applyNewCacheAux (newJobsOf existing jobs) matchResults currentRowCount
    (applyUpdateCache existing (jobsToUpdateOf existing jobs))
    (newJobsOf existing jobs)

/-! ### The analysis filter of `index.ts` and the analyzer's decision logic -/

/-- `getExistingJobIds().jobsNeedingAnalysis`: ids of existing entries with a
`null` probability and status still `NEW`. -/
def jobsNeedingAnalysis (existing : List (String × ExistingJobData)) : List String :=
  (existing.filter fun p => p.2.probability = none ∧ p.2.status = JobStatus.NEW).map
    Prod.fst

/-- `index.ts`: the jobs handed to the analyzer — the truly new jobs plus the
existing jobs that still need analysis. -/
def jobsToAnalyze (existing : List (String × ExistingJobData)) (uniqueJobs : List V1.Job) :
    List V1.Job :=
  newJobsOf existing uniqueJobs ++
  ((uniqueJobs.filter fun j => (lookupJob existing j.jobId).isSome).filter fun j =>
    j.jobId ∈ jobsNeedingAnalysis existing)

/-- The provider-visible outcome of analyzing one job: a thrown error or a
`null` analysis result (both mapped to `NOT AVAILABLE`), or a successful
analysis with its (integer, clamped) probability. -/
inductive AnalysisOutcome where
  | failure
  | success (probability : Int) (reasoning : String)
deriving Repr, DecidableEq

/-- `JobResumeAnalyzer.createDefaultResult`. -/
def createDefaultResult (jobId : String) : MatchResult :=
  { jobId := jobId, probability := none, status := JobStatus.NEW, reasoning := "" }

/-- `JobResumeAnalyzer.createNotAvailableResult`. -/
def createNotAvailableResult (jobId : String) : MatchResult :=
  { jobId := jobId, probability := none, status := JobStatus.NOT_AVAILABLE,
    reasoning := "Job posting could not be found or is no longer accepting applications" }

/-- The pure decision logic of `JobResumeAnalyzer.analyzeJob`: without a
loaded resume the default `NEW` result; on provider failure (null result or
thrown error) the `NOT AVAILABLE` result; on success the probability with
`determineStatus`. -/
def analyzeJobResult (jobId : String) (resumeLoaded : Bool) (outcome : AnalysisOutcome) :
    MatchResult :=
  if resumeLoaded = false then createDefaultResult jobId
  else
    match outcome with
    | AnalysisOutcome.failure => createNotAvailableResult jobId
    | AnalysisOutcome.success p reasoning =>
        { jobId := jobId, probability := some p, status := determineStatus (some p),
          reasoning := reasoning }

/-- `analyzeJobs` over the filtered batch: one result per analyzed job, keyed
by job id (the per-job remote outcome is an oracle parameter). -/
def analyzeJobsModel (existing : List (String × ExistingJobData)) (uniqueJobs : List V1.Job)
    (resumeLoaded : Bool) (outcomes : String → AnalysisOutcome) :
    List (String × MatchResult) :=
  (jobsToAnalyze existing uniqueJobs).map fun j =>
    (j.jobId, analyzeJobResult j.jobId resumeLoaded (outcomes j.jobId))

/-! ### C1: the update path writes only comparable fields plus the modified
timestamp -/

/-- C1: a job whose id already has a row and whose comparable fields differ
is classified as an update, and the update's row writes touch only
`date_modified` and the four comparable columns — status, probability, the AI
score/argument columns, notes and `date_added` keep their stored values. -/
theorem reconciliation_update_frame (existing : List (String × ExistingJobData))
    (job : V1.Job) (e : ExistingJobData) (now : String) (r : Row)
    (hfind : lookupJob existing job.jobId = some e)
    (hch : hasJobChanged job e = true) :
    classifyJob existing job = JobClass.update e.rowNumber ∧
    (∀ i, i ≠ COLUMN_INDEX.DATE_MODIFIED → i ≠ COLUMN_INDEX.JOB_TITLE →
      i ≠ COLUMN_INDEX.COMPANY → i ≠ COLUMN_INDEX.LOCATION → i ≠ COLUMN_INDEX.URL →
      updateRowForJob now job r i = r i) ∧
    (updateRowForJob now job r COLUMN_INDEX.STATUS = r COLUMN_INDEX.STATUS ∧
     updateRowForJob now job r COLUMN_INDEX.PROBABILITY = r COLUMN_INDEX.PROBABILITY ∧
     updateRowForJob now job r COLUMN_INDEX.GEMINI_SCORE = r COLUMN_INDEX.GEMINI_SCORE ∧
     updateRowForJob now job r COLUMN_INDEX.GEMINI_ARGUMENT = r COLUMN_INDEX.GEMINI_ARGUMENT ∧
     updateRowForJob now job r COLUMN_INDEX.CLAUDE_SCORE = r COLUMN_INDEX.CLAUDE_SCORE ∧
     updateRowForJob now job r COLUMN_INDEX.CLAUDE_ARGUMENT = r COLUMN_INDEX.CLAUDE_ARGUMENT ∧
     updateRowForJob now job r COLUMN_INDEX.NOTES = r COLUMN_INDEX.NOTES ∧
     updateRowForJob now job r COLUMN_INDEX.DATE_ADDED = r COLUMN_INDEX.DATE_ADDED) ∧
    (updateRowForJob now job r COLUMN_INDEX.DATE_MODIFIED = Cell.str now ∧
     updateRowForJob now job r COLUMN_INDEX.JOB_TITLE =
       Cell.str (sanitizeCellValue job.title) ∧
     updateRowForJob now job r COLUMN_INDEX.COMPANY =
       Cell.str (sanitizeCellValue job.company) ∧
     updateRowForJob now job r COLUMN_INDEX.LOCATION =
       Cell.str (sanitizeCellValue job.location) ∧
     updateRowForJob now job r COLUMN_INDEX.URL = Cell.str job.url) := by
  refine ⟨?_, ?_, ?_, ?_⟩
  · simp [classifyJob, hfind, hch]
  · intro i h1 h2 h3 h4 h5
    simp [updateRowForJob, setCell, h1, h2, h3, h4, h5]
  · refine ⟨?_, ?_, ?_, ?_, ?_, ?_, ?_, ?_⟩ <;>
      simp [updateRowForJob, setCell, COLUMN_INDEX.STATUS, COLUMN_INDEX.PROBABILITY,
        COLUMN_INDEX.GEMINI_SCORE, COLUMN_INDEX.GEMINI_ARGUMENT, COLUMN_INDEX.CLAUDE_SCORE,
        COLUMN_INDEX.CLAUDE_ARGUMENT, COLUMN_INDEX.NOTES, COLUMN_INDEX.DATE_ADDED,
        COLUMN_INDEX.DATE_MODIFIED, COLUMN_INDEX.JOB_TITLE, COLUMN_INDEX.COMPANY,
        COLUMN_INDEX.LOCATION, COLUMN_INDEX.URL]
  · refine ⟨?_, ?_, ?_, ?_, ?_⟩ <;>
      simp [updateRowForJob, setCell, COLUMN_INDEX.DATE_MODIFIED, COLUMN_INDEX.JOB_TITLE,
        COLUMN_INDEX.COMPANY, COLUMN_INDEX.LOCATION, COLUMN_INDEX.URL]

/-- A stored row mirror used by the C1 witness. -/
def c1Existing : ExistingJobData :=
  { rowNumber := 7, title := "Old Title", company := "Acme", location := "Boston, MA",
    url := "https://www.linkedin.com/jobs/view/555", probability := some 80,
    status := "INTERESTED" }

/-- A re-ingested job with a changed title, same id, used by the C1 witness. -/
def c1Job : V1.Job :=
  { jobId := "555", title := "New Title", company := "Acme", location := "Boston, MA",
    url := "https://www.linkedin.com/jobs/view/555", probability := none }

/-- Witness for C1 at a concrete changed job: classified as update, the
status and probability cells of the row are untouched while the title cell
and `date_modified` are written. -/
theorem reconciliation_update_frame_witness :
    classifyJob [("555", c1Existing)] c1Job = JobClass.update c1Existing.rowNumber ∧
    updateRowForJob "2026-10-12 00:00:00" c1Job blankRow COLUMN_INDEX.PROBABILITY =
      blankRow COLUMN_INDEX.PROBABILITY ∧
    updateRowForJob "2026-10-12 00:00:00" c1Job blankRow COLUMN_INDEX.STATUS =
      blankRow COLUMN_INDEX.STATUS ∧
    updateRowForJob "2026-10-12 00:00:00" c1Job blankRow COLUMN_INDEX.JOB_TITLE =
      Cell.str (sanitizeCellValue c1Job.title) := by
  have h := reconciliation_update_frame [("555", c1Existing)] c1Job c1Existing
    "2026-10-12 00:00:00" blankRow (by decide) (by decide)
  exact ⟨h.1, h.2.1 COLUMN_INDEX.PROBABILITY (by decide) (by decide) (by decide) (by decide)
    (by decide), h.2.2.1.1, h.2.2.2.2.1⟩

/-! ### C2: the engine's status discipline -/

/-- The only statuses the engine itself ever writes. -/
def engineStatuses : List String :=
  [JobStatus.NEW, JobStatus.LOW_MATCH, JobStatus.NOT_AVAILABLE]

theorem backfillSelect_mem (existing : List (String × ExistingJobData))
    (matchResults : List (String × MatchResult)) (t : String × Nat × MatchResult)
    (ht : t ∈ backfillSelect existing matchResults) :
    ∃ e, lookupJob existing t.1 = some e ∧ t.2.1 = e.rowNumber ∧
      e.probability = none ∧ t.2.2.probability ≠ none ∧ (t.1, t.2.2) ∈ matchResults := by
  unfold backfillSelect at ht
  obtain ⟨p, hp, hpt⟩ := List.mem_filterMap.mp ht
  rcases hlp : lookupJob existing p.1 with - | e
  · rw [hlp] at hpt
    simp at hpt
  · rw [hlp] at hpt
    dsimp only at hpt
    by_cases hcond : e.probability = none ∧ p.2.probability ≠ none
    · rw [if_pos hcond] at hpt
      injection hpt with hpt
      subst hpt
      exact ⟨e, hlp, rfl, hcond.1, hcond.2, hp⟩
    · rw [if_neg hcond] at hpt
      simp at hpt

/-- Anatomy of the writes emitted for one selected backfill row: every write
targets that row, and any write to the status column carries `LOW MATCH` and
was guarded by a mirror entry whose status is still `NEW`. -/
theorem backfill_body_mem (existing : List (String × ExistingJobData))
    (matchResults : List (String × MatchResult)) (t : String × Nat × MatchResult)
    (w : CellWrite)
    (hwt : w ∈
      ([⟨t.2.1, COLUMN_INDEX.PROBABILITY, optNumCell t.2.2.probability⟩,
        ⟨t.2.1, COLUMN_INDEX.REQUIREMENTS_MET,
          Cell.str (formatRequirementsFraction t.2.2.requirementsMet t.2.2.requirementsTotal)⟩,
        ⟨t.2.1, COLUMN_INDEX.REQUIREMENTS_GAPS,
          Cell.str (formatRequirementsGaps t.2.2.requirementsGaps)⟩] ++
       match (backfillSelect existing matchResults).find? (fun q => q.2.1 = t.2.1) with
       | some q =>
           match lookupJob existing q.1 with
           | some e =>
               if e.status = JobStatus.NEW ∧ t.2.2.status = JobStatus.LOW_MATCH then
                 [⟨t.2.1, COLUMN_INDEX.STATUS, Cell.str JobStatus.LOW_MATCH⟩]
               else []
           | none => []
       | none => [])) :
    w.rowNumber = t.2.1 ∧
    (w.col = COLUMN_INDEX.STATUS →
      w.value = Cell.str JobStatus.LOW_MATCH ∧
      ∃ q e, (backfillSelect existing matchResults).find? (fun q => q.2.1 = t.2.1) = some q ∧
        lookupJob existing q.1 = some e ∧ e.status = JobStatus.NEW) := by
  rcases List.mem_append.mp hwt with h3 | hrest
  · simp only [List.mem_cons, List.not_mem_nil, or_false] at h3
    rcases h3 with rfl | rfl | rfl
    · exact ⟨rfl, fun hcol => absurd hcol
        (by show COLUMN_INDEX.PROBABILITY ≠ COLUMN_INDEX.STATUS; decide)⟩
    · exact ⟨rfl, fun hcol => absurd hcol
        (by show COLUMN_INDEX.REQUIREMENTS_MET ≠ COLUMN_INDEX.STATUS; decide)⟩
    · exact ⟨rfl, fun hcol => absurd hcol
        (by show COLUMN_INDEX.REQUIREMENTS_GAPS ≠ COLUMN_INDEX.STATUS; decide)⟩
  · rcases hfind : (backfillSelect existing matchResults).find? (fun q => q.2.1 = t.2.1)
      with - | q
    · rw [hfind] at hrest
      exact absurd hrest (List.not_mem_nil w)
    · rw [hfind] at hrest
      dsimp only at hrest
      rcases hlq : lookupJob existing q.1 with - | e
      · rw [hlq] at hrest
        exact absurd hrest (List.not_mem_nil w)
      · rw [hlq] at hrest
        dsimp only at hrest
        by_cases hcond : e.status = JobStatus.NEW ∧ t.2.2.status = JobStatus.LOW_MATCH
        · rw [if_pos hcond] at hrest
          simp only [List.mem_singleton] at hrest
          subst hrest
          exact ⟨rfl, fun _ => ⟨rfl, q, e, hfind, hlq, hcond.1⟩⟩
        · rw [if_neg hcond] at hrest
          exact absurd hrest (List.not_mem_nil w)

/-- C2: the engine writes only `NEW`, `LOW MATCH` or `NOT AVAILABLE`.  The
analyzer's decision logic only ever emits those three statuses; row creation
writes the match result's status (or `NEW`); the backfill pass writes a
status cell only when the mirrored row's status is still `NEW`, and then only
`LOW MATCH`; the update path never writes the status column at all. -/
theorem engine_status_discipline :
    (∀ (jobId : String) (resumeLoaded : Bool) (outcome : AnalysisOutcome),
      (analyzeJobResult jobId resumeLoaded outcome).status ∈ engineStatuses) ∧
    (∀ (now : String) (job : V1.Job) (mr : Option MatchResult),
      (∀ m, mr = some m → m.status ∈ engineStatuses) →
      ∃ s, jobToRow now job mr COLUMN_INDEX.STATUS = Cell.str s ∧ s ∈ engineStatuses) ∧
    (∀ (existing : List (String × ExistingJobData))
        (matchResults : List (String × MatchResult)) (w : CellWrite),
      w ∈ backfillWrites existing matchResults → w.col = COLUMN_INDEX.STATUS →
      w.value = Cell.str JobStatus.LOW_MATCH ∧
      ∃ jobId e, lookupJob existing jobId = some e ∧ e.rowNumber = w.rowNumber ∧
        e.status = JobStatus.NEW) ∧
    (∀ (now : String) (job : V1.Job) (r : Row),
      updateRowForJob now job r COLUMN_INDEX.STATUS = r COLUMN_INDEX.STATUS) := by
  refine ⟨?_, ?_, ?_, ?_⟩
  · intro jobId rl oc
    unfold analyzeJobResult
    cases rl with
    | false => simp [createDefaultResult, engineStatuses]
    | true =>
        rw [if_neg (by decide : ¬(true = false))]
        cases oc with
        | failure => simp [createNotAvailableResult, engineStatuses]
        | success p reasoning =>
            show determineStatus (some p) ∈ engineStatuses
            unfold determineStatus
            by_cases hp : p < LOW_MATCH_THRESHOLD
            · simp [hp, engineStatuses]
            · simp [hp, engineStatuses]
  · intro now job mr hmr
    cases mr with
    | none =>
        refine ⟨JobStatus.NEW, ?_, by simp [engineStatuses]⟩
        simp [jobToRow, setCell, COLUMN_INDEX.JOB_ID, COLUMN_INDEX.STATUS,
          COLUMN_INDEX.DATE_ADDED, COLUMN_INDEX.DATE_MODIFIED, COLUMN_INDEX.PROBABILITY,
          COLUMN_INDEX.GEMINI_SCORE, COLUMN_INDEX.GEMINI_ARGUMENT, COLUMN_INDEX.CLAUDE_SCORE,
          COLUMN_INDEX.CLAUDE_ARGUMENT, COLUMN_INDEX.JOB_TITLE, COLUMN_INDEX.COMPANY,
          COLUMN_INDEX.LOCATION, COLUMN_INDEX.URL, COLUMN_INDEX.NOTES,
          COLUMN_INDEX.REQUIREMENTS_MET, COLUMN_INDEX.REQUIREMENTS_GAPS]
    | some m =>
        refine ⟨m.status, ?_, hmr m rfl⟩
        simp [jobToRow, setCell, COLUMN_INDEX.JOB_ID, COLUMN_INDEX.STATUS,
          COLUMN_INDEX.DATE_ADDED, COLUMN_INDEX.DATE_MODIFIED, COLUMN_INDEX.PROBABILITY,
          COLUMN_INDEX.GEMINI_SCORE, COLUMN_INDEX.GEMINI_ARGUMENT, COLUMN_INDEX.CLAUDE_SCORE,
          COLUMN_INDEX.CLAUDE_ARGUMENT, COLUMN_INDEX.JOB_TITLE, COLUMN_INDEX.COMPANY,
          COLUMN_INDEX.LOCATION, COLUMN_INDEX.URL, COLUMN_INDEX.NOTES,
          COLUMN_INDEX.REQUIREMENTS_MET, COLUMN_INDEX.REQUIREMENTS_GAPS]
  · intro existing matchResults w hw hcol
    unfold backfillWrites at hw
    obtain ⟨t, ht, hwt⟩ := List.mem_flatMap.mp hw
    obtain ⟨hrow, hstat⟩ := backfill_body_mem existing matchResults t w hwt
    obtain ⟨hval, q, e, hfind, hlq, hstatus⟩ := hstat hcol
    refine ⟨hval, q.1, e, hlq, ?_, hstatus⟩
    have hpred := List.find?_some hfind
    have hrowq : q.2.1 = t.2.1 := by simpa using hpred
    obtain ⟨e', hlq', hrow', -, -, -⟩ :=
      backfillSelect_mem existing matchResults q (List.mem_of_find?_eq_some hfind)
    rw [hlq] at hlq'
    injection hlq' with he
    subst he
    rw [hrow, ← hrowq, hrow']
  · intro now job r
    simp [updateRowForJob, setCell, COLUMN_INDEX.STATUS, COLUMN_INDEX.DATE_MODIFIED,
      COLUMN_INDEX.JOB_TITLE, COLUMN_INDEX.COMPANY, COLUMN_INDEX.LOCATION, COLUMN_INDEX.URL]

/-- Mirror entry for the C2 witness: a not-yet-scored `NEW` row. -/
def c2Existing : ExistingJobData :=
  { rowNumber := 3, title := "T", company := "C", location := "L",
    url := "https://www.linkedin.com/jobs/view/9", probability := none,
    status := JobStatus.NEW }

/-- Match result for the C2 witness: probability 40 below threshold. -/
def c2MR : MatchResult :=
  { jobId := "9", probability := some 40, status := JobStatus.LOW_MATCH, reasoning := "gaps" }

/-- Job for the C2 witness. -/
def c2Job : V1.Job :=
  { jobId := "9", title := "T", company := "C", location := "L",
    url := "https://www.linkedin.com/jobs/view/9", probability := none }

/-- Witness for C2: a new row created from a below-threshold result carries an
engine status, and the concrete backfill status write targets a stored `NEW`
row with value `LOW MATCH`. -/
theorem engine_status_discipline_witness :
    (∃ s, jobToRow "2026-10-12 00:00:00" c2Job (some c2MR) COLUMN_INDEX.STATUS =
        Cell.str s ∧ s ∈ engineStatuses) ∧
    ((⟨3, COLUMN_INDEX.STATUS, Cell.str JobStatus.LOW_MATCH⟩ : CellWrite).value =
        Cell.str JobStatus.LOW_MATCH ∧
      ∃ jobId e, lookupJob [("9", c2Existing)] jobId = some e ∧
        e.rowNumber =
          (⟨3, COLUMN_INDEX.STATUS, Cell.str JobStatus.LOW_MATCH⟩ : CellWrite).rowNumber ∧
        e.status = JobStatus.NEW) :=
  ⟨engine_status_discipline.2.1 "2026-10-12 00:00:00" c2Job (some c2MR)
      (fun m hm => by injection hm with hm; rw [← hm]; decide),
   engine_status_discipline.2.2.1 [("9", c2Existing)] [("9", c2MR)] _ (by decide) rfl⟩

/-! ### C3: the probability backfill only touches rows that were loaded with
a null probability and status `NEW` -/

theorem lookupJob_setJob_self (m : List (String × ExistingJobData)) (k : String)
    (v : ExistingJobData) : lookupJob (setJob m k v) k = some v := by
  induction m with
  | nil => simp [setJob, lookupJob]
  | cons x rest ih =>
      obtain ⟨k₀, v₀⟩ := x
      by_cases h : k₀ = k
      · simp [setJob, lookupJob, h]
      · simp [setJob, lookupJob, h, ih]

theorem lookupJob_setJob_other (m : List (String × ExistingJobData)) (k : String)
    (v : ExistingJobData) (key : String) (h : k ≠ key) :
    lookupJob (setJob m k v) key = lookupJob m key := by
  induction m with
  | nil => simp [setJob, lookupJob, h]
  | cons x rest ih =>
      obtain ⟨k₀, v₀⟩ := x
      by_cases h0 : k₀ = k
      · subst h0
        simp [setJob, lookupJob, h]
      · simp [setJob, lookupJob, h0, ih]

theorem applyNewCacheAux_lookup_not_mem (allNew : List V1.Job)
    (mrs : List (String × MatchResult)) (rc : Nat) (l : List V1.Job)
    (acc : List (String × ExistingJobData)) (key : String)
    (h : key ∉ l.map V1.Job.jobId) :
    lookupJob (applyNewCacheAux allNew mrs rc acc l) key = lookupJob acc key := by
  induction l generalizing acc with
  | nil => rfl
  | cons x rest ih =>
      simp only [List.map_cons, List.mem_cons, not_or] at h
      simp only [applyNewCacheAux]
      rw [ih _ h.2, lookupJob_setJob_other]
      exact fun he => h.1 he.symm

theorem applyNewCacheAux_lookup_mem (allNew : List V1.Job)
    (mrs : List (String × MatchResult)) (rc : Nat) (l : List V1.Job)
    (acc : List (String × ExistingJobData)) (j : V1.Job) (hj : j ∈ l)
    (hnodup : (l.map V1.Job.jobId).Nodup) :
    lookupJob (applyNewCacheAux allNew mrs rc acc l) j.jobId =
      some (newCacheEntry allNew mrs rc j) := by
  induction l generalizing acc with
  | nil => simp at hj
  | cons x rest ih =>
      simp only [List.map_cons, List.nodup_cons] at hnodup
      simp only [applyNewCacheAux]
      rcases List.mem_cons.mp hj with rfl | hj'
      · rw [applyNewCacheAux_lookup_not_mem _ _ _ _ _ _ hnodup.1, lookupJob_setJob_self]
      · exact ih _ hj' hnodup.2

theorem lookupJob_eq_of_mem_nodup (m : List (String × ExistingJobData))
    (p : String × ExistingJobData) (hp : p ∈ m) (hnd : (m.map Prod.fst).Nodup) :
    lookupJob m p.1 = some p.2 := by
  induction m with
  | nil => simp at hp
  | cons x rest ih =>
      simp only [List.map_cons, List.nodup_cons] at hnd
      rcases List.mem_cons.mp hp with rfl | hp'
      · obtain ⟨k, v⟩ := p
        simp [lookupJob]
      · obtain ⟨k, v⟩ := x
        have hx : k ≠ p.1 := by
          intro he
          exact hnd.1 (he ▸ List.mem_map.mpr ⟨p, hp', rfl⟩)
        simp only [lookupJob]
        rw [if_neg hx]
        exact ih hp' hnd.2

theorem lookupMR_map (f : V1.Job → MatchResult) (l : List V1.Job) (j : V1.Job)
    (hj : j ∈ l) (hnodup : (l.map V1.Job.jobId).Nodup) :
    lookupMR (l.map fun x => (x.jobId, f x)) j.jobId = some (f j) := by
  induction l with
  | nil => simp at hj
  | cons x rest ih =>
      simp only [List.map_cons, List.nodup_cons] at hnodup
      rcases List.mem_cons.mp hj with rfl | hj'
      · simp [lookupMR]
      · have hx : x.jobId ≠ j.jobId := by
          intro he
          exact hnodup.1 (he ▸ List.mem_map.mpr ⟨j, hj', rfl⟩)
        simp only [List.map_cons, lookupMR]
        rw [if_neg hx]
        exact ih hj' hnodup.2

theorem newJobsOf_ids_nodup (existing : List (String × ExistingJobData))
    (uniqueJobs : List V1.Job) (h : (uniqueJobs.map V1.Job.jobId).Nodup) :
    ((newJobsOf existing uniqueJobs).map V1.Job.jobId).Nodup :=
  List.Nodup.sublist (List.Sublist.map _ (List.filter_sublist _)) h

theorem jobsToAnalyze_ids_nodup (existing : List (String × ExistingJobData))
    (uniqueJobs : List V1.Job) (h : (uniqueJobs.map V1.Job.jobId).Nodup) :
    ((jobsToAnalyze existing uniqueJobs).map V1.Job.jobId).Nodup := by
  unfold jobsToAnalyze
  rw [List.map_append]
  apply List.Nodup.append
  · exact newJobsOf_ids_nodup existing uniqueJobs h
  · exact List.Nodup.sublist
      (List.Sublist.map _ ((List.filter_sublist _).trans (List.filter_sublist _))) h
  · intro a ha hb
    obtain ⟨j1, hj1, rfl⟩ := List.mem_map.mp ha
    obtain ⟨j2, hj2, hid⟩ := List.mem_map.mp hb
    have h1 : lookupJob existing j1.jobId = none :=
      of_decide_eq_true (List.mem_filter.mp hj1).2
    have h2 : (lookupJob existing j2.jobId).isSome = true :=
      (List.mem_filter.mp (List.mem_filter.mp hj2).1).2
    rw [hid, h1] at h2
    simp at h2

theorem jobsToUpdateOf_spec (existing : List (String × ExistingJobData))
    (jobs : List V1.Job) :
    ∀ u ∈ jobsToUpdateOf existing jobs,
      ∃ e₀, lookupJob existing u.1.jobId = some e₀ ∧ u.2 = e₀.rowNumber := by
  intro u hu
  unfold jobsToUpdateOf at hu
  obtain ⟨j, hj, hju⟩ := List.mem_filterMap.mp hu
  rcases hlj : lookupJob existing j.jobId with - | e
  · rw [hlj] at hju
    simp at hju
  · rw [hlj] at hju
    dsimp only at hju
    by_cases hch : hasJobChanged j e = true
    · rw [if_pos hch] at hju
      injection hju with hju
      subst hju
      exact ⟨e, hlj, rfl⟩
    · rw [if_neg hch] at hju
      simp at hju

theorem applyUpdateCache_inv (existing : List (String × ExistingJobData))
    (ups : List (V1.Job × Nat)) (acc : List (String × ExistingJobData))
    (hups : ∀ u ∈ ups, ∃ e₀, lookupJob existing u.1.jobId = some e₀ ∧ u.2 = e₀.rowNumber)
    (hacc : ∀ key, ((lookupJob acc key).isSome = (lookupJob existing key).isSome) ∧
      ∀ e' e₀, lookupJob acc key = some e' → lookupJob existing key = some e₀ →
        e'.probability = e₀.probability ∧ e'.status = e₀.status ∧
        e'.rowNumber = e₀.rowNumber) :
    ∀ key, ((lookupJob (applyUpdateCache acc ups) key).isSome =
        (lookupJob existing key).isSome) ∧
      ∀ e' e₀, lookupJob (applyUpdateCache acc ups) key = some e' →
        lookupJob existing key = some e₀ →
        e'.probability = e₀.probability ∧ e'.status = e₀.status ∧
        e'.rowNumber = e₀.rowNumber := by
  induction ups generalizing acc with
  | nil => exact hacc
  | cons u rest ih =>
      obtain ⟨j, rn⟩ := u
      obtain ⟨e₀, he₀, hrn⟩ := hups (j, rn) (List.mem_cons_self _ _)
      simp only [applyUpdateCache]
      apply ih
      · exact fun u hu => hups u (List.mem_cons_of_mem _ hu)
      · intro key
        by_cases hkey : j.jobId = key
        · subst hkey
          rw [lookupJob_setJob_self]
          have haccj := hacc j.jobId
          have hsome : (lookupJob acc j.jobId).isSome = true := by
            rw [haccj.1, he₀]
            rfl
          obtain ⟨ed, hed⟩ := Option.isSome_iff_exists.mp hsome
          have hfields := haccj.2 ed e₀ hed he₀
          constructor
          · rw [he₀]
            rfl
          · intro e' e₀' h1 h2
            injection h1 with h1
            rw [he₀] at h2
            injection h2 with h2
            subst h1
            subst h2
            rw [hed]
            exact ⟨hfields.1, hfields.2.1, hrn⟩
        · rw [lookupJob_setJob_other _ _ _ _ hkey]
          exact hacc key

/-- C3: across one run — the analysis filter of `index.ts`, `appendJobs`'
mirror updates, then `updateExistingJobProbabilities` — every cell the
backfill pass writes targets a row that was loaded from the store with a
null probability and status still `NEW`; rows whose status advanced past
`NEW` receive no backfill write at all. -/
theorem backfill_only_loaded_new_null (existing : List (String × ExistingJobData))
    (uniqueJobs : List V1.Job) (resumeLoaded : Bool)
    (outcomes : String → AnalysisOutcome) (currentRowCount : Nat)
    (hkeysE : (existing.map Prod.fst).Nodup)
    (hnodup : (uniqueJobs.map V1.Job.jobId).Nodup) :
    ∀ w ∈ backfillWrites
        (appendJobsCache existing uniqueJobs
          (analyzeJobsModel existing uniqueJobs resumeLoaded outcomes) currentRowCount)
        (analyzeJobsModel existing uniqueJobs resumeLoaded outcomes),
      ∃ jobId e, lookupJob existing jobId = some e ∧ e.rowNumber = w.rowNumber ∧
        e.status = JobStatus.NEW ∧ e.probability = none := by
  intro w hw
  unfold backfillWrites at hw
  obtain ⟨t, ht, hwt⟩ := List.mem_flatMap.mp hw
  have hrow := (backfill_body_mem _ _ t w hwt).1
  obtain ⟨e', hlook', hrowN, hprobNone, hprobSome, hpair⟩ := backfillSelect_mem _ _ t ht
  unfold analyzeJobsModel at hpair
  obtain ⟨j, hjta, hjeq⟩ := List.mem_map.mp hpair
  have hid : j.jobId = t.1 := congrArg Prod.fst hjeq
  have hres : analyzeJobResult j.jobId resumeLoaded (outcomes j.jobId) = t.2.2 :=
    congrArg Prod.snd hjeq
  have hjta' := hjta
  unfold jobsToAnalyze at hjta'
  rcases List.mem_append.mp hjta' with hnew | hold
  · exfalso
    have hnodupNew := newJobsOf_ids_nodup existing uniqueJobs hnodup
    have hlookupCache : lookupJob
        (appendJobsCache existing uniqueJobs
          (analyzeJobsModel existing uniqueJobs resumeLoaded outcomes) currentRowCount)
        j.jobId =
        some (newCacheEntry (newJobsOf existing uniqueJobs)
          (analyzeJobsModel existing uniqueJobs resumeLoaded outcomes) currentRowCount j) := by
      unfold appendJobsCache
      exact applyNewCacheAux_lookup_mem _ _ _ _ _ j hnew hnodupNew
    rw [hid] at hlookupCache
    rw [hlookupCache] at hlook'
    injection hlook' with he'
    have hmrlook : lookupMR (analyzeJobsModel existing uniqueJobs resumeLoaded outcomes)
        j.jobId = some (analyzeJobResult j.jobId resumeLoaded (outcomes j.jobId)) := by
      unfold analyzeJobsModel
      exact lookupMR_map _ _ j hjta (jobsToAnalyze_ids_nodup existing uniqueJobs hnodup)
    have hpe : e'.probability = t.2.2.probability := by
      rw [← he']
      show (match lookupMR (analyzeJobsModel existing uniqueJobs resumeLoaded outcomes)
          j.jobId with
        | some m => m.probability
        | none => none) = t.2.2.probability
      rw [hmrlook, hres]
    rw [hprobNone] at hpe
    exact hprobSome hpe.symm
  · obtain ⟨hj1, hj2⟩ := List.mem_filter.mp hold
    have hneed : j.jobId ∈ jobsNeedingAnalysis existing := of_decide_eq_true hj2
    unfold jobsNeedingAnalysis at hneed
    obtain ⟨p, hpmem, hpfst⟩ := List.mem_map.mp hneed
    obtain ⟨hpin, hpcond⟩ := List.mem_filter.mp hpmem
    have hpc := of_decide_eq_true hpcond
    have hlookE : lookupJob existing p.1 = some p.2 :=
      lookupJob_eq_of_mem_nodup existing p hpin hkeysE
    rw [hpfst] at hlookE
    have hnotnew : j.jobId ∉ (newJobsOf existing uniqueJobs).map V1.Job.jobId := by
      intro hmem
      obtain ⟨x, hx, hxid⟩ := List.mem_map.mp hmem
      have hxnone : lookupJob existing x.jobId = none :=
        of_decide_eq_true (List.mem_filter.mp hx).2
      rw [hxid, hlookE] at hxnone
      exact Option.noConfusion hxnone
    have hcachelook : lookupJob
        (appendJobsCache existing uniqueJobs
          (analyzeJobsModel existing uniqueJobs resumeLoaded outcomes) currentRowCount)
        j.jobId =
        lookupJob (applyUpdateCache existing (jobsToUpdateOf existing uniqueJobs))
          j.jobId := by
      unfold appendJobsCache
      exact applyNewCacheAux_lookup_not_mem _ _ _ _ _ _ hnotnew
    rw [← hid] at hlook'
    rw [hcachelook] at hlook'
    have hinv := applyUpdateCache_inv existing (jobsToUpdateOf existing uniqueJobs) existing
      (jobsToUpdateOf_spec existing uniqueJobs)
      (fun key => ⟨rfl, fun e' e₀ h1 h2 => by
        rw [h1] at h2
        injection h2 with h2
        subst h2
        exact ⟨rfl, rfl, rfl⟩⟩)
    have hfields := (hinv j.jobId).2 e' p.2 hlook' hlookE
    refine ⟨j.jobId, p.2, hlookE, ?_, hpc.2, hpc.1⟩
    rw [hrow, hrowN, hfields.2.2]

/-- Loaded store mirror for the C3 witness: one `NEW`, unscored row. -/
def c3Existing : List (String × ExistingJobData) :=
  [("77", { rowNumber := 2, title := "T", company := "C", location := "L",
            url := "https://www.linkedin.com/jobs/view/77", probability := none,
            status := JobStatus.NEW })]

/-- Batch for the C3 witness: the same job re-ingested unchanged. -/
def c3Jobs : List V1.Job :=
  [{ jobId := "77", title := "T", company := "C", location := "L",
     url := "https://www.linkedin.com/jobs/view/77", probability := none }]

/-- Witness for C3: the probability write the backfill emits for the concrete
run targets the loaded row, which indeed was `NEW` with a null probability. -/
theorem backfill_only_loaded_new_null_witness :
    ∃ jobId e, lookupJob c3Existing jobId = some e ∧
      e.rowNumber = (⟨2, COLUMN_INDEX.PROBABILITY, Cell.num 40⟩ : CellWrite).rowNumber ∧
      e.status = JobStatus.NEW ∧ e.probability = none :=
  backfill_only_loaded_new_null c3Existing c3Jobs true
    (fun _ => AnalysisOutcome.success 40 "gaps") 5 (by decide) (by decide)
    ⟨2, COLUMN_INDEX.PROBABILITY, Cell.num 40⟩ (by decide)

/-- Witness for C7: a value whose first character is safe is unchanged. -/
theorem sanitizeCellValue_first_char_spec_witness :
    sanitizeCellValue "Acme Corp" = "Acme Corp" :=
  (sanitizeCellValue_first_char_spec "Acme Corp").2.1
    (by
      intro c cs h
      injection h with h1 h2
      subst h1
      decide)
